import Mathlib

/- Verification development for the PalomaDEX multi-chain trading server
   (src/padex.py).  The Python source computes all AMM / spread / slippage
   quantities with CPython arithmetic: arbitrary-precision integers, `//`
   floor division, `int()` truncation toward zero, and IEEE-754 binary64
   ("double") floating point for every `float` expression.  The model below
   embeds that arithmetic exactly:

   * `rnd q` is the binary64 round-to-nearest, ties-to-even value of the
     rational `q`, with unbounded exponent range.  This agrees with CPython
     doubles for every magnitude below 2^1024 (and above 2^-1021), which
     covers all uint256 token amounts handled by the server; overflow to
     infinity and subnormal underflow cannot occur in any quantity the
     claims are about.
   * an `int op float` expression in Python first converts the int with
     `rnd`, each float operation rounds its exact rational result with
     `rnd`, a division of two Python ints (`/`) is the correctly rounded
     double of the exact quotient, `int(x)` truncates a float toward zero
     (`pytrunc`), and `a // b` on ints is floor division (`Int.fdiv`).
   * a Python float literal such as `0.4` denotes the binary64 value
     nearest the decimal, i.e. `rnd (2/5)`.

   Stateful tool handlers are embedded as pure functions over an explicit
   environment (the values the chain RPC collaborator would return), and
   each returns its result together with the ordered list of network calls
   it issues, distinguishing reads from writes. -/

set_option maxHeartbeats 1000000
set_option maxRecDepth 8000

/- ===================== Part A: binary64 arithmetic model ============== -/

/-- Fuel-driven bit length recursion: `log2F fuel n` is the floor of the
base-2 logarithm of `n`, provided `n ≤ fuel`.  Structural recursion on the
fuel keeps the definition kernel-reducible. -/
def log2F : ℕ → ℕ → ℕ
  | 0, _ => 0
  | fuel + 1, n => if 2 ≤ n then log2F fuel (n / 2) + 1 else 0

/-- Floor of the base-2 logarithm of a natural number (0 for 0 and 1). -/
def nlog2 (n : ℕ) : ℕ := log2F n n

/-- Floor of the base-2 logarithm of a positive rational: the unique `e`
with `2^e ≤ q < 2^(e+1)`. -/
def floorLog2 (q : ℚ) : ℤ :=
  if 1 ≤ q then (nlog2 ⌊q⌋.toNat : ℤ)
  else if (2 : ℚ) ^ (-(nlog2 ⌊q⁻¹⌋.toNat : ℤ)) ≤ q then -(nlog2 ⌊q⁻¹⌋.toNat : ℤ)
  else -(nlog2 ⌊q⁻¹⌋.toNat : ℤ) - 1

/-- Round a rational to the nearest integer, ties to the even neighbour
(the IEEE-754 default tie rule). -/
def rhe (q : ℚ) : ℤ :=
  if q - ⌊q⌋ < 1 / 2 then ⌊q⌋
  else if 1 / 2 < q - ⌊q⌋ then ⌊q⌋ + 1
  else if 2 ∣ ⌊q⌋ then ⌊q⌋ else ⌊q⌋ + 1

/-- Binary64 rounding of a positive rational: scale into the 53-bit
significand range `[2^52, 2^53]`, round to nearest-even, scale back. -/
def rndPos (q : ℚ) : ℚ :=
  (rhe (q * 2 ^ (52 - floorLog2 q)) : ℚ) * 2 ^ (floorLog2 q - 52)

/-- Binary64 round-to-nearest (ties to even) of a rational, extended to
all signs.  Models the value of every CPython `float` expression appearing
in padex.py (exact in the double-precision normal range). -/
def rnd (q : ℚ) : ℚ :=
  if 0 < q then rndPos q else if q < 0 then -rndPos (-q) else 0

/-- CPython `int(x)` on a float: truncation toward zero. -/
def pytrunc (q : ℚ) : ℤ := if 0 ≤ q then ⌊q⌋ else -⌊-q⌋

/- ===================== Part B: trading constants and AMM ============== -/

/-- `MAX_AMOUNT = 2**256 - 1` (padex.py line 299), the unlimited-approval
sentinel. -/
def MAX_AMOUNT : ℤ := 2 ^ 256 - 1

/-- `GAS_MULTIPLIER = 3` (padex.py line 300): the estimate is divided by
this to obtain the 33% gas buffer. -/
def GAS_MULTIPLIER : ℤ := 3

/-- `MAX_SPREAD = 0.4` (padex.py line 301): the binary64 value of the
literal `0.4`, i.e. the double nearest 2/5. -/
def MAX_SPREAD : ℚ := rnd (2 / 5)

/-- The default `fee_rate=0.003` of `AMM.calculate_swap_output`: the
binary64 value of the literal `0.003`. -/
def FEE_RATE_DEFAULT : ℚ := rnd (3 / 1000)

namespace AMM

/-- `input_amount_with_fee = int(input_amount * (1 - fee_rate))`
(padex.py line 375): `1 - fee_rate` is a float subtraction (one rounding),
the int `input_amount` is converted to a double, the product is rounded,
and `int()` truncates toward zero.  `fee_rate` is the exact rational value
of the caller's double. -/
def input_amount_with_fee (input_amount : ℤ) (fee_rate : ℚ) : ℤ :=
  pytrunc (rnd (rnd (input_amount : ℚ) * rnd (1 - fee_rate)))

/-- `AMM.calculate_swap_output` (padex.py lines 368-385): constant-product
swap output `numerator // denominator` with the fee applied to the input
amount in double arithmetic; returns 0 when either reserve (or the
denominator) is nonpositive. -/
def calculate_swap_output (input_amount input_reserve output_reserve : ℤ)
    (fee_rate : ℚ) : ℤ :=
  if input_reserve ≤ 0 ∨ output_reserve ≤ 0 then 0
  else
    let numerator := output_reserve * input_amount_with_fee input_amount fee_rate
    let denominator := input_reserve + input_amount_with_fee input_amount fee_rate
    if denominator ≤ 0 then 0
    else Int.fdiv numerator denominator

/-- `AMM.calculate_price_impact` (padex.py lines 387-408).  The two
`a / b` divisions of Python ints produce the correctly rounded double of
the exact quotient; the final `(cp - np) / cp * 100` is a chain of three
double operations; `max(0.0, ...)` clamps the result. -/
def calculate_price_impact (input_amount input_reserve output_reserve : ℤ) : ℚ :=
  if input_reserve ≤ 0 ∨ output_reserve ≤ 0 then 0
  else
    let current_price := rnd ((output_reserve : ℚ) / (input_reserve : ℚ))
    let output_amount :=
      calculate_swap_output input_amount input_reserve output_reserve FEE_RATE_DEFAULT
    if input_amount ≤ 0 then 0
    else
      let new_price := rnd ((output_amount : ℚ) / (input_amount : ℚ))
      if current_price ≤ 0 then 0
      else max 0 (rnd (rnd (rnd (current_price - new_price) / current_price) * 100))

/-- `AMM.apply_slippage_tolerance` (padex.py lines 410-413):
`int(amount * (1 - slippage_tolerance / 100))` in double arithmetic, where
`slippage_tolerance` is the exact rational value of the caller's double. -/
def apply_slippage_tolerance (amount : ℤ) (slippage_tolerance : ℚ) : ℤ :=
  pytrunc (rnd (rnd (amount : ℚ) * rnd (1 - rnd (slippage_tolerance / 100))))

end AMM

/-- Reference definition written from the specification text of claim C3:
`swapOutput` as the exact unsigned-integer constant-product value
`floor(y*dxf / (x + dxf))` with `dxf = floor(dx * (1 - fee))` computed in
exact rational arithmetic (no floating point), returning 0 when either
reserve is nonpositive.  Used only to compare with the source-derived
`AMM.calculate_swap_output`. -/
def swapOutput_spec (input_amount input_reserve output_reserve : ℤ)
    (fee_rate : ℚ) : ℤ :=
  if input_reserve ≤ 0 ∨ output_reserve ≤ 0 then 0
  else
    let dxf := ⌊(input_amount : ℚ) * (1 - fee_rate)⌋
    if input_reserve + dxf ≤ 0 then 0
    else Int.fdiv (output_reserve * dxf) (input_reserve + dxf)

/- ===================== Part C: chain registry and tool surface ======== -/

/-- One network interaction with a chain RPC endpoint.  `write` covers
exactly the state-changing submissions (`send_raw_transaction`); every
other RPC (balance, allowance, symbol, gas estimation, receipt polling,
nonce) is a `read`. -/
inductive NetCall
  | read (what : String)
  | write (what : String)
deriving DecidableEq

/-- Whether a network call is a read-only RPC. -/
def NetCall.isRead : NetCall → Bool
  | .read _ => true
  | .write _ => false

/-- Whether a network call submits a transaction (a chain write). -/
def NetCall.isWrite : NetCall → Bool
  | .read _ => false
  | .write _ => true

/-- The fields of `ChainConfig` (padex.py lines 47-57) that the embedded
operations consume.  The `pusd_token` / connector addresses come from
environment variables and are modelled as part of each operation's
environment where needed. -/
structure ChainConfig where
  chain_id : ℤ
  name : String
  gas_price_gwei : ℤ
deriving DecidableEq

/-- `CHAIN_CONFIGS` (padex.py lines 60-131), in source insertion order,
keyed by the string chain id. -/
def CHAIN_CONFIGS : List (String × ChainConfig) :=
  [("1", ⟨1, "Ethereum", 30⟩),
   ("42161", ⟨42161, "Arbitrum One", 1⟩),
   ("10", ⟨10, "Optimism", 1⟩),
   ("8453", ⟨8453, "Base", 1⟩),
   ("56", ⟨56, "BNB Smart Chain", 5⟩),
   ("137", ⟨137, "Polygon", 30⟩),
   ("100", ⟨100, "Gnosis Chain", 2⟩)]

/-- The statically supported chain ids (the keys of `CHAIN_CONFIGS`). -/
def supportedChainIds : List String := CHAIN_CONFIGS.map Prod.fst

/-- Name of a supported chain (empty string off the table). -/
def chainName (chain_id : String) : String :=
  ((CHAIN_CONFIGS.lookup chain_id).map ChainConfig.name).getD ""

/-- `TRADER_ADDRESSES` (padex.py lines 288-296). -/
def TRADER_ADDRESSES : List (String × String) :=
  [("1", "0x7230EC05eD8c38D5be6f58Ae41e30D1ED6cfDAf1"),
   ("42161", "0x36B8763b3b71685F21512511bB433f4A0f50213E"),
   ("8453", "0xd58Dfd5b39fCe87dD9C434e95428DdB289934179"),
   ("56", "0x8ee509a97279029071AB66Cb0391e8Dc67a137f9"),
   ("100", "0xd58Dfd5b39fCe87dD9C434e95428DdB289934179"),
   ("10", "0xB6d4AAFfBbceB5e363352179E294326C91d6c127"),
   ("137", "0xB6d4AAFfBbceB5e363352179E294326C91d6c127")]

/-- The quote dictionary returned by the pricing collaborator
(`PalomaDEXAPI.get_quote`); `amount0` is the reported available
liquidity, already parsed to an integer. -/
structure QuoteData where
  exist : Bool
  empty : Bool
  amount0 : ℤ
deriving DecidableEq

/-- `max_trade_amount = int(available_liquidity * MAX_SPREAD) if
available_liquidity > 0 else 0` (padex.py line 1778): the int is
converted to a double, multiplied by the double `MAX_SPREAD`, and
truncated. -/
def max_trade_amount (available_liquidity : ℤ) : ℤ :=
  if 0 < available_liquidity
  then pytrunc (rnd (rnd (available_liquidity : ℚ) * MAX_SPREAD))
  else 0

/-- Outcome of `validate_trade_quote`, mirroring the structured JSON
responses of padex.py lines 1735-1800 (the error strings interpolate the
same data the constructors carry). -/
inductive ValidationResult
  | unsupportedChain (chain_id : String)
  | invalidInputAddress
  | invalidOutputAddress
  | invalidAmount
  | pairNotFound
  | noLiquidity
  | spreadExceeded (max_amount : ℤ)
  | accepted (available_liquidity max_amount : ℤ)
deriving DecidableEq

/-- `validate_trade_quote` (padex.py lines 1720-1813).  Guard order as in
the source: supported chain, input address, output address, positive
integer amount, then the quote collaborator call (the only network
interaction), then pair-exists, pool-non-empty and the 40% spread check.
`input_amount = none` models a string that fails `int(...)`. -/
def validate_trade_quote (chain_id : String) (input_addr_ok output_addr_ok : Bool)
    (input_amount : Option ℤ) (quote : QuoteData) : ValidationResult × List NetCall :=
  if chain_id ∉ supportedChainIds then (.unsupportedChain chain_id, [])
  else if ¬ input_addr_ok then (.invalidInputAddress, [])
  else if ¬ output_addr_ok then (.invalidOutputAddress, [])
  else
    match input_amount with
    | none => (.invalidAmount, [])
    | some amt =>
      if amt ≤ 0 then (.invalidAmount, [])
      else if ¬ quote.exist then (.pairNotFound, [.read "get_quote"])
      else if quote.empty then (.noLiquidity, [.read "get_quote"])
      else
        let mta := max_trade_amount quote.amount0
        if mta < amt then (.spreadExceeded mta, [.read "get_quote"])
        else (.accepted quote.amount0 mta, [.read "get_quote"])

/-- One entry of the `transactions` list built by
`approve_token_spending` (padex.py lines 1542-1546 and 1563-1568). -/
structure ApproveStep where
  step : String
  success : Bool
deriving DecidableEq

/-- Chain responses consumed by the allowance phase. -/
structure ApproveEnv where
  current_allowance : ℤ
  reset_success : Bool
  set_success : Bool
deriving DecidableEq

/-- Outcome of `approve_token_spending` (padex.py lines 1483-1593). -/
inductive ApproveResult
  | errUnsupportedChain (chain_id : String)
  | errClientUnavailable (chain_name : String)
  | errInvalidToken
  | errInvalidSpender
  | done (transactions : List ApproveStep) (approved_amount : ℤ)
      (is_unlimited : Bool) (all_successful : Bool)
deriving DecidableEq

/-- The network calls of one signed-and-confirmed transaction: nonce
read, raw submission (the only write), receipt wait. -/
def txSubmitCalls : List NetCall :=
  [.read "get_transaction_count", .write "send_raw_transaction",
   .read "wait_for_transaction_receipt"]

/-- `approve_token_spending` (padex.py lines 1483-1593).  After the
guards it always performs: read the current allowance; if it is positive,
submit a reset-to-zero approval and wait for its receipt; then always
submit the approval for `amount` (or `MAX_AMOUNT` when `amount` is
absent) and wait; finally read the token symbol for display.  There is no
branch that skips the approval when the current allowance already covers
the requested amount. -/
def approve_token_spending (chain_id : String)
    (client_available token_addr_ok spender_addr_ok : Bool)
    (amount : Option ℤ) (env : ApproveEnv) : ApproveResult × List NetCall :=
  if chain_id ∉ supportedChainIds then (.errUnsupportedChain chain_id, [])
  else if ¬ client_available then (.errClientUnavailable (chainName chain_id), [])
  else if ¬ token_addr_ok then (.errInvalidToken, [])
  else if ¬ spender_addr_ok then (.errInvalidSpender, [])
  else
    let approval_amount := amount.getD MAX_AMOUNT
    let resetTxs : List ApproveStep :=
      if 0 < env.current_allowance then [⟨"reset_allowance", env.reset_success⟩] else []
    let resetCalls : List NetCall :=
      if 0 < env.current_allowance then txSubmitCalls else []
    let transactions := resetTxs ++ [⟨"set_allowance", env.set_success⟩]
    (.done transactions approval_amount (approval_amount == MAX_AMOUNT)
        (transactions.all ApproveStep.success),
      [.read "allowance"] ++ resetCalls ++ txSubmitCalls ++ [.read "symbol"])

/-- Chain responses consumed by the execution-phase operations:
`gas_fee = none` models a failing `gas_fee()` contract read (fallback 0),
`estimated_gas = none` models a failing `estimate_gas` (fallback to the
per-call-kind default). -/
structure ExecEnv where
  gas_fee : Option ℤ
  estimated_gas : Option ℤ
  receipt_success : Bool
deriving DecidableEq

/-- Outcome of the three Trader-contract write operations. -/
inductive ExecResult
  | errUnsupportedChain (chain_id : String)
  | errClientUnavailable (chain_name : String)
  | errTraderNotConfigured (chain_name : String)
  | errInvalidAddress
  | errInvalidAmount
  | submitted (gas_limit : ℤ) (value : ℤ) (success : Bool)
deriving DecidableEq

/-- The gas limit attached to a submitted transaction: on successful
estimation `estimated_gas + estimated_gas // GAS_MULTIPLIER` (padex.py
line 1662), otherwise the fixed per-call-kind default (300000 for swaps,
400000 for liquidity operations). -/
def tx_gas_limit (estimated_gas : Option ℤ) (default_gas : ℤ) : ℤ :=
  match estimated_gas with
  | some g => g + Int.fdiv g GAS_MULTIPLIER
  | none => default_gas

/-- The network calls of one execution-phase operation, in source order:
gas-fee read, nonce read, gas estimation, raw submission, receipt wait,
then the cosmetic symbol/decimals reads. -/
def execCalls : List NetCall :=
  [.read "gas_fee", .read "get_transaction_count", .read "estimate_gas",
   .write "send_raw_transaction", .read "wait_for_transaction_receipt",
   .read "symbol", .read "decimals"]

/-- `execute_token_swap` (padex.py lines 1596-1717).  Guards in source
order; a failed gas estimation falls back to the default gas limit of
300000 and the transaction is still signed and submitted. -/
def execute_token_swap (chain_id : String)
    (client_available from_addr_ok to_addr_ok : Bool)
    (amount_wei : Option ℤ) (env : ExecEnv) : ExecResult × List NetCall :=
  if chain_id ∉ supportedChainIds then (.errUnsupportedChain chain_id, [])
  else if ¬ client_available then (.errClientUnavailable (chainName chain_id), [])
  else if (TRADER_ADDRESSES.lookup chain_id).getD "" = "" then
    (.errTraderNotConfigured (chainName chain_id), [])
  else if ¬ from_addr_ok then (.errInvalidAddress, [])
  else if ¬ to_addr_ok then (.errInvalidAddress, [])
  else
    match amount_wei with
    | none => (.errInvalidAmount, [])
    | some amt =>
      if amt ≤ 0 then (.errInvalidAmount, [])
      else
        (.submitted (tx_gas_limit env.estimated_gas 300000) (env.gas_fee.getD 0)
            env.receipt_success, execCalls)

/-- `add_liquidity` (padex.py lines 1897-2026): same pipeline with two
token amounts and a default gas limit of 400000. -/
def add_liquidity (chain_id : String)
    (client_available token0_addr_ok token1_addr_ok : Bool)
    (token0_amount token1_amount : Option ℤ) (env : ExecEnv) :
    ExecResult × List NetCall :=
  if chain_id ∉ supportedChainIds then (.errUnsupportedChain chain_id, [])
  else if ¬ client_available then (.errClientUnavailable (chainName chain_id), [])
  else if (TRADER_ADDRESSES.lookup chain_id).getD "" = "" then
    (.errTraderNotConfigured (chainName chain_id), [])
  else if ¬ token0_addr_ok then (.errInvalidAddress, [])
  else if ¬ token1_addr_ok then (.errInvalidAddress, [])
  else
    match token0_amount, token1_amount with
    | some a0, some a1 =>
      if a0 ≤ 0 ∨ a1 ≤ 0 then (.errInvalidAmount, [])
      else
        (.submitted (tx_gas_limit env.estimated_gas 400000) (env.gas_fee.getD 0)
            env.receipt_success, execCalls)
    | _, _ => (.errInvalidAmount, [])

/-- `remove_liquidity` (padex.py lines 2029-2145): same pipeline with one
liquidity amount and a default gas limit of 400000. -/
def remove_liquidity (chain_id : String)
    (client_available token0_addr_ok token1_addr_ok : Bool)
    (liquidity_amount : Option ℤ) (env : ExecEnv) : ExecResult × List NetCall :=
  if chain_id ∉ supportedChainIds then (.errUnsupportedChain chain_id, [])
  else if ¬ client_available then (.errClientUnavailable (chainName chain_id), [])
  else if (TRADER_ADDRESSES.lookup chain_id).getD "" = "" then
    (.errTraderNotConfigured (chainName chain_id), [])
  else if ¬ token0_addr_ok then (.errInvalidAddress, [])
  else if ¬ token1_addr_ok then (.errInvalidAddress, [])
  else
    match liquidity_amount with
    | none => (.errInvalidAmount, [])
    | some amt =>
      if amt ≤ 0 then (.errInvalidAmount, [])
      else
        (.submitted (tx_gas_limit env.estimated_gas 400000) (env.gas_fee.getD 0)
            env.receipt_success, execCalls)

/-- Outcome of `get_chain_info` (padex.py lines 600-648). -/
inductive ChainInfoResult
  | errUnsupportedChain (chain_id : String) (available : List String)
  | info (chain_id : ℤ) (name : String) (status : String)
deriving DecidableEq

/-- `get_chain_info` (padex.py lines 600-648): unsupported chain ids are
rejected before any network call, naming the offending id and the
available ids; otherwise the only network call is the latest-block read
used for the connection status. -/
def get_chain_info (chain_id : String) (client_available block_read_ok : Bool) :
    ChainInfoResult × List NetCall :=
  if chain_id ∉ supportedChainIds then
    (.errUnsupportedChain chain_id supportedChainIds, [])
  else
    let cfg := (CHAIN_CONFIGS.lookup chain_id).getD ⟨0, "", 0⟩
    if client_available then
      if block_read_ok then (.info cfg.chain_id cfg.name "connected", [.read "get_block"])
      else (.info cfg.chain_id cfg.name "connection_error", [.read "get_block"])
    else (.info cfg.chain_id cfg.name "not_connected", [])

/-- The per-chain dictionary produced by `_get_chain_balance` (padex.py
lines 677-727): either the balance fields or an inline error entry.  The
fields themselves are display strings built from the RPC responses. -/
inductive ChainBalanceResult
  | balances (native_balance : String) (pusd_balance : Option String)
  | error (msg : String)
deriving DecidableEq

/-- `get_address_balances` (padex.py lines 730-783).  After address
validation, the loop at lines 753-758 creates one task per configured
chain **whose id is present in the live `web3_clients` mapping** — chains
without a client get no task and hence no slot in the merged `balances`
dictionary, which is keyed by chain name.  `env` abstracts the settled
per-chain task results. -/
def get_address_balances (address_ok : Bool) (clients : List String)
    (env : String → ChainBalanceResult) :
    Except String (List (String × ChainBalanceResult)) :=
  if ¬ address_ok then .error "Invalid address format"
  else
    .ok ((CHAIN_CONFIGS.filter (fun p => p.1 ∈ clients)).map
      (fun p => (p.2.name, env p.1)))

/-- Symbol/decimals pair read from a token contract. -/
structure TokenInfo where
  symbol : String
  decimals : ℕ
deriving DecidableEq

/-- `'ETH' if chain_id == ChainID.ETHEREUM_MAIN else config.name.split()[0]`
(padex.py line 1147). -/
def nativeSymbol (chain_id : String) : String :=
  if chain_id = "1" then "ETH" else ((chainName chain_id).splitOn " ").headD ""

/-- Chain responses consumed by `buy_etf_token`: `none` for a token-info
field models the corresponding contract read raising. -/
structure BuyEnv where
  etf_connector_configured : Bool
  client_available : Bool
  etf_info : Option TokenInfo
  input_info : Option TokenInfo

/-- Outcome of `buy_etf_token` (padex.py lines 1093-1189). -/
inductive BuyResult
  | errUnsupportedChain (chain_id : String)
  | errConnectorNotConfigured (chain_name : String)
  | errInvalidEtfAddress
  | errInvalidInputAddress
  | errInvalidAmount
  | errClientUnavailable (chain_name : String)
  | errTokenRead
  | simulation (status : String) (etf_symbol : String) (etf_decimals : ℕ)
      (input_symbol : String) (input_decimals : ℕ) (slippage : ℚ)

/-- `buy_etf_token` (padex.py lines 1093-1189): validation, then
read-only token-contract queries, then a result record whose `status`
field is the literal `"simulation"`; no transaction is built, signed or
submitted on any path.  `input_amount` is the parsed float of the amount
string (`none` = parse failure). -/
def buy_etf_token (chain_id : String) (etf_addr_ok input_is_native input_addr_ok : Bool)
    (input_amount : Option ℚ) (slippage : ℚ) (env : BuyEnv) :
    BuyResult × List NetCall :=
  if chain_id ∉ supportedChainIds then (.errUnsupportedChain chain_id, [])
  else if ¬ env.etf_connector_configured then
    (.errConnectorNotConfigured (chainName chain_id), [])
  else if ¬ etf_addr_ok then (.errInvalidEtfAddress, [])
  else if ¬ input_is_native ∧ ¬ input_addr_ok then (.errInvalidInputAddress, [])
  else
    match input_amount with
    | none => (.errInvalidAmount, [])
    | some amt =>
      if amt ≤ 0 then (.errInvalidAmount, [])
      else if ¬ env.client_available then (.errClientUnavailable (chainName chain_id), [])
      else
        match env.etf_info with
        | none => (.errTokenRead, [.read "etf_token_info"])
        | some etf =>
          if input_is_native then
            (.simulation "simulation" etf.symbol etf.decimals (nativeSymbol chain_id) 18
                slippage, [.read "etf_token_info"])
          else
            match env.input_info with
            | none => (.errTokenRead, [.read "etf_token_info", .read "input_token_info"])
            | some inp =>
              (.simulation "simulation" etf.symbol etf.decimals inp.symbol inp.decimals
                  slippage, [.read "etf_token_info", .read "input_token_info"])

/-- Chain responses consumed by `sell_etf_token`: the single try-block at
padex.py lines 1231-1241 reads symbol, decimals and the wallet balance
together, so one optional field models the whole block. -/
structure SellEnv where
  etf_connector_configured : Bool
  client_available : Bool
  etf_read : Option (TokenInfo × ℤ)

/-- Outcome of `sell_etf_token` (padex.py lines 1191-1275). -/
inductive SellResult
  | errUnsupportedChain (chain_id : String)
  | errConnectorNotConfigured (chain_name : String)
  | errInvalidEtfAddress
  | errInvalidAmount
  | errClientUnavailable (chain_name : String)
  | errTokenRead
  | errInsufficientBalance (balance : ℚ) (symbol : String)
  | simulation (status : String) (etf_symbol : String) (amount_to_sell : ℚ)
      (current_balance : ℚ) (decimals : ℕ)

/-- `sell_etf_token` (padex.py lines 1191-1275): validation, read-only
token queries, a balance sufficiency check (`balance_wei / 10**decimals`
is a correctly rounded int/int float division), then a `"simulation"`
record; no transaction is built, signed or submitted on any path. -/
def sell_etf_token (chain_id : String) (etf_addr_ok : Bool)
    (etf_amount : Option ℚ) (env : SellEnv) : SellResult × List NetCall :=
  if chain_id ∉ supportedChainIds then (.errUnsupportedChain chain_id, [])
  else if ¬ env.etf_connector_configured then
    (.errConnectorNotConfigured (chainName chain_id), [])
  else if ¬ etf_addr_ok then (.errInvalidEtfAddress, [])
  else
    match etf_amount with
    | none => (.errInvalidAmount, [])
    | some amt =>
      if amt ≤ 0 then (.errInvalidAmount, [])
      else if ¬ env.client_available then (.errClientUnavailable (chainName chain_id), [])
      else
        match env.etf_read with
        | none => (.errTokenRead, [.read "etf_token_info"])
        | some et =>
          let balance := rnd ((et.2 : ℚ) / ((10 : ℚ) ^ et.1.decimals))
          if balance < amt then
            (.errInsufficientBalance balance et.1.symbol, [.read "etf_token_info"])
          else
            (.simulation "simulation" et.1.symbol amt balance et.1.decimals,
              [.read "etf_token_info"])

/- ===================== Theorems: binary64 model foundations ========== -/

/-- `log2F` computes the floor of the base-2 logarithm when given enough
fuel. -/
theorem log2F_spec (fuel : ℕ) : ∀ n : ℕ, 1 ≤ n → n ≤ fuel →
    2 ^ log2F fuel n ≤ n ∧ n < 2 ^ (log2F fuel n + 1) := by
  induction fuel with
  | zero => intro n h1 h2; omega
  | succ fuel ih =>
    intro n h1 h2
    by_cases h : 2 ≤ n
    · have hd1 : 1 ≤ n / 2 := by omega
      have hd2 : n / 2 ≤ fuel := by omega
      obtain ⟨ha, hb⟩ := ih (n / 2) hd1 hd2
      have hg : log2F (fuel + 1) n = log2F fuel (n / 2) + 1 := by
        rw [log2F, if_pos h]
      rw [hg]
      have e1 : 2 ^ (log2F fuel (n / 2) + 1) = 2 * 2 ^ log2F fuel (n / 2) := by
        rw [pow_succ]; ring
      have e2 : 2 ^ (log2F fuel (n / 2) + 1 + 1) = 2 * 2 ^ (log2F fuel (n / 2) + 1) := by
        rw [pow_succ _ (log2F fuel (n / 2) + 1)]; ring
      constructor
      · rw [e1]; omega
      · rw [e2]; omega
    · have hg : log2F (fuel + 1) n = 0 := by rw [log2F, if_neg h]
      rw [hg]; simp; omega

/-- `nlog2` is the floor of the base-2 logarithm on positive naturals. -/
theorem nlog2_spec {n : ℕ} (h : 1 ≤ n) : 2 ^ nlog2 n ≤ n ∧ n < 2 ^ (nlog2 n + 1) :=
  log2F_spec n n h le_rfl

/-- `floorLog2` satisfies its defining bracketing on positive rationals. -/
theorem floorLog2_spec {q : ℚ} (hq : 0 < q) :
    (2 : ℚ) ^ floorLog2 q ≤ q ∧ q < 2 ^ (floorLog2 q + 1) := by
  unfold floorLog2
  by_cases h1 : 1 ≤ q
  · rw [if_pos h1]
    have hfl : 1 ≤ ⌊q⌋ := by
      rw [Int.le_floor]; exact_mod_cast h1
    have hn1 : 1 ≤ ⌊q⌋.toNat := by omega
    obtain ⟨ha, hb⟩ := nlog2_spec hn1
    have hcast : ((⌊q⌋.toNat : ℤ) : ℚ) = ((⌊q⌋ : ℤ) : ℚ) := by
      congr 1; omega
    constructor
    · rw [zpow_natCast]
      have c1 : ((2 ^ nlog2 ⌊q⌋.toNat : ℕ) : ℚ) ≤ ((⌊q⌋.toNat : ℕ) : ℚ) := by
        exact_mod_cast ha
      push_cast at c1 hcast
      calc (2:ℚ) ^ nlog2 ⌊q⌋.toNat ≤ (⌊q⌋.toNat : ℚ) := by push_cast; linarith
        _ = (⌊q⌋ : ℚ) := hcast
        _ ≤ q := Int.floor_le q
    · have hstep : ((nlog2 ⌊q⌋.toNat : ℤ) + 1) = ((nlog2 ⌊q⌋.toNat + 1 : ℕ) : ℤ) := by
        push_cast; ring
      rw [hstep, zpow_natCast]
      have c2 : ((⌊q⌋.toNat : ℕ) : ℚ) + 1 ≤ ((2 ^ (nlog2 ⌊q⌋.toNat + 1) : ℕ) : ℚ) := by
        exact_mod_cast hb
      push_cast at c2 hcast
      calc q < (⌊q⌋ : ℚ) + 1 := Int.lt_floor_add_one q
        _ = (⌊q⌋.toNat : ℚ) + 1 := by rw [hcast]
        _ ≤ (2:ℚ) ^ (nlog2 ⌊q⌋.toNat + 1) := by push_cast; linarith
  · rw [if_neg h1]
    push_neg at h1
    have hinv1 : 1 < q⁻¹ := (one_lt_inv₀ hq).mpr h1
    have hfl : 1 ≤ ⌊q⁻¹⌋ := by
      rw [Int.le_floor]; exact_mod_cast le_of_lt hinv1
    have hn1 : 1 ≤ ⌊q⁻¹⌋.toNat := by omega
    obtain ⟨ha, hb⟩ := nlog2_spec hn1
    have hcast : ((⌊q⁻¹⌋.toNat : ℤ) : ℚ) = ((⌊q⁻¹⌋ : ℤ) : ℚ) := by
      congr 1; omega
    set K : ℤ := (nlog2 ⌊q⁻¹⌋.toNat : ℤ) with hK
    have hKup : (2:ℚ) ^ K ≤ q⁻¹ := by
      rw [hK, zpow_natCast]
      have c1 : ((2 ^ nlog2 ⌊q⁻¹⌋.toNat : ℕ) : ℚ) ≤ ((⌊q⁻¹⌋.toNat : ℕ) : ℚ) := by
        exact_mod_cast ha
      push_cast at c1 hcast
      calc (2:ℚ) ^ nlog2 ⌊q⁻¹⌋.toNat ≤ (⌊q⁻¹⌋.toNat : ℚ) := by push_cast; linarith
        _ = (⌊q⁻¹⌋ : ℚ) := hcast
        _ ≤ q⁻¹ := Int.floor_le _
    have hKdn : q⁻¹ < (2:ℚ) ^ (K + 1) := by
      have hstep : K + 1 = ((nlog2 ⌊q⁻¹⌋.toNat + 1 : ℕ) : ℤ) := by
        rw [hK]; push_cast; ring
      rw [hstep, zpow_natCast]
      have c2 : ((⌊q⁻¹⌋.toNat : ℕ) : ℚ) + 1 ≤ ((2 ^ (nlog2 ⌊q⁻¹⌋.toNat + 1) : ℕ) : ℚ) := by
        exact_mod_cast hb
      push_cast at c2 hcast
      calc q⁻¹ < (⌊q⁻¹⌋ : ℚ) + 1 := Int.lt_floor_add_one _
        _ = (⌊q⁻¹⌋.toNat : ℚ) + 1 := by rw [hcast]
        _ ≤ (2:ℚ) ^ (nlog2 ⌊q⁻¹⌋.toNat + 1) := by push_cast; linarith
    have hcanc : ∀ m : ℤ, (2:ℚ) ^ m * 2 ^ (-m) = 1 := by
      intro m; rw [← zpow_add₀ (two_ne_zero)]; simp
    have hqle : q ≤ (2:ℚ) ^ (-K) := by
      have hmul : q * 2 ^ K ≤ 1 := by
        have h2 := mul_le_mul_of_nonneg_left hKup (le_of_lt hq)
        rwa [mul_inv_cancel₀ (ne_of_gt hq)] at h2
      have h3 := mul_le_mul_of_nonneg_right hmul (le_of_lt (zpow_pos two_pos (-K)))
      rw [one_mul, mul_assoc, hcanc K, mul_one] at h3
      exact h3
    have hqgt : (2:ℚ) ^ (-(K + 1)) < q := by
      have hmul : 1 < q * 2 ^ (K + 1) := by
        have h2 := mul_lt_mul_of_pos_left hKdn hq
        rwa [mul_inv_cancel₀ (ne_of_gt hq)] at h2
      have h3 := mul_lt_mul_of_pos_right hmul (zpow_pos two_pos (-(K + 1)))
      rw [one_mul, mul_assoc, hcanc (K + 1), mul_one] at h3
      exact h3
    by_cases hcond : (2:ℚ) ^ (-K) ≤ q
    · rw [if_pos hcond]
      refine ⟨hcond, ?_⟩
      calc q ≤ (2:ℚ) ^ (-K) := hqle
        _ < 2 ^ (-K + 1) := zpow_lt_zpow_right₀ one_lt_two (by omega)
    · rw [if_neg hcond]
      push_neg at hcond
      constructor
      · have : -K - 1 = -(K + 1) := by ring
        rw [this]; exact le_of_lt hqgt
      · have : -K - 1 + 1 = -K := by ring
        rw [this]; exact hcond

/-- The bracketing determines `floorLog2` uniquely. -/
theorem floorLog2_unique {q : ℚ} {e : ℤ} (h1 : (2:ℚ) ^ e ≤ q) (h2 : q < 2 ^ (e + 1)) :
    floorLog2 q = e := by
  have hq : 0 < q := lt_of_lt_of_le (zpow_pos two_pos e) h1
  obtain ⟨g1, g2⟩ := floorLog2_spec hq
  by_contra hne
  rcases lt_or_gt_of_ne hne with hlt | hgt
  · have hh : (2:ℚ) ^ (floorLog2 q + 1) ≤ 2 ^ e := zpow_le_zpow_right₀ one_le_two (by omega)
    linarith
  · have hh : (2:ℚ) ^ (e + 1) ≤ 2 ^ floorLog2 q := zpow_le_zpow_right₀ one_le_two (by omega)
    linarith

/-- A `floorLog2` upper bound from a power-of-two upper bound. -/
theorem floorLog2_le_of_lt {q : ℚ} {n : ℤ} (hq : 0 < q) (h : q < 2 ^ (n + 1)) :
    floorLog2 q ≤ n := by
  obtain ⟨g1, _⟩ := floorLog2_spec hq
  by_contra hc
  push_neg at hc
  have hh : (2:ℚ) ^ (n + 1) ≤ 2 ^ floorLog2 q := zpow_le_zpow_right₀ one_le_two (by omega)
  linarith

/-- Rounding an integer to the nearest integer is the identity. -/
theorem rhe_intCast (n : ℤ) : rhe (n : ℚ) = n := by
  unfold rhe
  rw [Int.floor_intCast]
  norm_num

/-- `rhe` never rounds up by more than one half. -/
theorem rhe_le (q : ℚ) : (rhe q : ℚ) ≤ q + 1 / 2 := by
  unfold rhe
  have hfl : (⌊q⌋ : ℚ) ≤ q := Int.floor_le q
  split_ifs with h1 h2 h3
  · push_cast; linarith
  · push_cast; linarith
  · push_cast; linarith
  · push_cast
    have h1' := le_of_not_lt h1
    linarith

/-- `rhe` never rounds down by more than one half. -/
theorem le_rhe (q : ℚ) : q - 1 / 2 ≤ (rhe q : ℚ) := by
  unfold rhe
  have hfl2 : q < (⌊q⌋ : ℚ) + 1 := Int.lt_floor_add_one q
  split_ifs with h1 h2 h3
  · push_cast; linarith
  · push_cast; linarith
  · push_cast
    have h2' := le_of_not_lt h2
    linarith
  · push_cast; linarith

/-- When `rhe` rounds up by exactly one half, the tie rule was used, so
the result is even. -/
theorem rhe_even_of_eq_add_half {q : ℚ} (h : (rhe q : ℚ) = q + 1 / 2) : 2 ∣ rhe q := by
  have hfl : (⌊q⌋ : ℚ) ≤ q := Int.floor_le q
  unfold rhe at h ⊢
  split_ifs at h ⊢ with h1 h2 h3
  · exfalso; push_cast at h; linarith
  · exfalso; push_cast at h; linarith
  · exact h3
  · have h1' := le_of_not_lt h1
    omega

/-- When `rhe` rounds down by exactly one half, the tie rule was used, so
the result is even. -/
theorem rhe_even_of_eq_sub_half {q : ℚ} (h : (rhe q : ℚ) = q - 1 / 2) : 2 ∣ rhe q := by
  have hfl2 : q < (⌊q⌋ : ℚ) + 1 := Int.lt_floor_add_one q
  unfold rhe at h ⊢
  split_ifs at h ⊢ with h1 h2 h3
  · exfalso; push_cast at h; linarith
  · exfalso; push_cast at h; linarith
  · exact h3
  · exfalso; push_cast at h; linarith

/-- Round-half-even is monotone. -/
theorem rhe_mono {p q : ℚ} (h : p ≤ q) : rhe p ≤ rhe q := by
  by_contra hc
  push_neg at hc
  have h1 : rhe q + 1 ≤ rhe p := hc
  have c1 : (rhe p : ℚ) ≤ p + 1 / 2 := rhe_le p
  have c2 : q - 1 / 2 ≤ (rhe q : ℚ) := le_rhe q
  have hcast : (rhe q : ℚ) + 1 ≤ (rhe p : ℚ) := by exact_mod_cast h1
  have e1 : (rhe p : ℚ) = p + 1 / 2 := by linarith
  have e2 : (rhe q : ℚ) = q - 1 / 2 := by linarith
  have epq : p = q := by linarith
  have d1 : 2 ∣ rhe p := rhe_even_of_eq_add_half e1
  have d2 : 2 ∣ rhe q := rhe_even_of_eq_sub_half e2
  have hsucc : (rhe p : ℚ) = (rhe q : ℚ) + 1 := by rw [e1, e2, epq]; ring
  have : rhe p = rhe q + 1 := by exact_mod_cast hsucc
  omega

/-- `rnd` on positives is `rndPos`. -/
theorem rnd_pos_eq {q : ℚ} (hq : 0 < q) : rnd q = rndPos q := by
  unfold rnd; rw [if_pos hq]

/-- `rnd 0 = 0`. -/
theorem rnd_zero : rnd 0 = 0 := by
  unfold rnd; norm_num

/-- `rnd` commutes with negation. -/
theorem rnd_neg (q : ℚ) : rnd (-q) = -rnd q := by
  unfold rnd
  rcases lt_trichotomy q 0 with h | h | h
  · rw [if_pos (by linarith : (0:ℚ) < -q), if_neg (by linarith : ¬ (0:ℚ) < q),
      if_pos h, neg_neg]
  · subst h; norm_num
  · rw [if_neg (by linarith : ¬ (0:ℚ) < -q), if_pos h,
      if_pos (by linarith : -q < 0), neg_neg]

/-- Cancelling opposite integer powers of two. -/
theorem two_zpow_cancel (m : ℤ) : (2:ℚ) ^ m * 2 ^ (-m) = 1 := by
  rw [← zpow_add₀ (two_ne_zero)]; simp

/-- The scaled argument of `rhe` inside `rndPos` lies in the binade
`[2^52, 2^53)`. -/
theorem rnd_scaled_bounds {q : ℚ} (hq : 0 < q) :
    (2:ℚ) ^ (52:ℤ) ≤ q * 2 ^ (52 - floorLog2 q) ∧
      q * 2 ^ (52 - floorLog2 q) < 2 ^ (53:ℤ) := by
  obtain ⟨h1, h2⟩ := floorLog2_spec hq
  have hp : (0:ℚ) < 2 ^ (52 - floorLog2 q) := zpow_pos two_pos _
  constructor
  · have h3 := mul_le_mul_of_nonneg_right h1 (le_of_lt hp)
    have e1 : floorLog2 q + (52 - floorLog2 q) = (52:ℤ) := by ring
    rw [← zpow_add₀ (two_ne_zero) (floorLog2 q) (52 - floorLog2 q), e1] at h3
    exact h3
  · have h3 := mul_lt_mul_of_pos_right h2 hp
    have e1 : floorLog2 q + 1 + (52 - floorLog2 q) = (53:ℤ) := by ring
    rw [← zpow_add₀ (two_ne_zero) (floorLog2 q + 1) (52 - floorLog2 q), e1] at h3
    exact h3

/-- Lower significand bound: `rnd q` is at least `2 ^ floorLog2 q`. -/
theorem pow_le_rnd {q : ℚ} (hq : 0 < q) : (2:ℚ) ^ floorLog2 q ≤ rnd q := by
  rw [rnd_pos_eq hq]; unfold rndPos
  obtain ⟨h1, _⟩ := rnd_scaled_bounds hq
  have hcast : ((2:ℚ) ^ (52:ℤ)) = (((2:ℤ) ^ (52:ℕ) : ℤ) : ℚ) := by norm_num
  have h2 : ((2:ℤ) ^ (52:ℕ) : ℤ) ≤ rhe (q * 2 ^ (52 - floorLog2 q)) := by
    have hle : (((2:ℤ) ^ (52:ℕ) : ℤ) : ℚ) ≤ q * 2 ^ (52 - floorLog2 q) := by
      rw [← hcast]; exact h1
    have := rhe_mono hle
    rwa [rhe_intCast] at this
  have h3 : ((2:ℚ) ^ (52:ℤ)) * 2 ^ (floorLog2 q - 52) ≤
      (rhe (q * 2 ^ (52 - floorLog2 q)) : ℚ) * 2 ^ (floorLog2 q - 52) := by
    apply mul_le_mul_of_nonneg_right _ (le_of_lt (zpow_pos two_pos _))
    rw [hcast]
    exact_mod_cast h2
  have e1 : (52:ℤ) + (floorLog2 q - 52) = floorLog2 q := by ring
  rw [← zpow_add₀ (two_ne_zero) (52:ℤ) (floorLog2 q - 52), e1] at h3
  exact h3

/-- Upper significand bound: `rnd q` is at most `2 ^ (floorLog2 q + 1)`. -/
theorem rnd_le_pow {q : ℚ} (hq : 0 < q) : rnd q ≤ (2:ℚ) ^ (floorLog2 q + 1) := by
  rw [rnd_pos_eq hq]; unfold rndPos
  obtain ⟨_, h2⟩ := rnd_scaled_bounds hq
  have hcast : ((2:ℚ) ^ (53:ℤ)) = (((2:ℤ) ^ (53:ℕ) : ℤ) : ℚ) := by norm_num
  have h3 : rhe (q * 2 ^ (52 - floorLog2 q)) ≤ ((2:ℤ) ^ (53:ℕ) : ℤ) := by
    have hle : q * 2 ^ (52 - floorLog2 q) ≤ (((2:ℤ) ^ (53:ℕ) : ℤ) : ℚ) := by
      rw [← hcast]; exact le_of_lt h2
    have := rhe_mono hle
    rwa [rhe_intCast] at this
  have h4 : (rhe (q * 2 ^ (52 - floorLog2 q)) : ℚ) * 2 ^ (floorLog2 q - 52) ≤
      ((2:ℚ) ^ (53:ℤ)) * 2 ^ (floorLog2 q - 52) := by
    apply mul_le_mul_of_nonneg_right _ (le_of_lt (zpow_pos two_pos _))
    rw [hcast]
    exact_mod_cast h3
  have e1 : (53:ℤ) + (floorLog2 q - 52) = floorLog2 q + 1 := by ring
  rw [← zpow_add₀ (two_ne_zero) (53:ℤ) (floorLog2 q - 52), e1] at h4
  exact h4

/-- `rnd` of a positive rational is positive. -/
theorem rnd_pos {q : ℚ} (hq : 0 < q) : 0 < rnd q :=
  lt_of_lt_of_le (zpow_pos two_pos _) (pow_le_rnd hq)

/-- `rnd` of a nonnegative rational is nonnegative. -/
theorem rnd_nonneg {q : ℚ} (hq : 0 ≤ q) : 0 ≤ rnd q := by
  rcases eq_or_lt_of_le hq with h | h
  · rw [← h, rnd_zero]
  · exact le_of_lt (rnd_pos h)

/-- The rounding error of `rnd` is at most half an ulp (upper bound). -/
theorem rnd_le_err {q : ℚ} (hq : 0 < q) : rnd q ≤ q + 2 ^ (floorLog2 q - 53) := by
  rw [rnd_pos_eq hq]; unfold rndPos
  have hp : (0:ℚ) < 2 ^ (floorLog2 q - 52) := zpow_pos two_pos _
  have h1 := rhe_le (q * 2 ^ (52 - floorLog2 q))
  have h2 := mul_le_mul_of_nonneg_right h1 (le_of_lt hp)
  have e1 : q * 2 ^ (52 - floorLog2 q) * 2 ^ (floorLog2 q - 52) = q := by
    rw [mul_assoc, ← zpow_add₀ (two_ne_zero)]
    norm_num
  have e2 : (1:ℚ) / 2 * 2 ^ (floorLog2 q - 52) = 2 ^ (floorLog2 q - 53) := by
    have : (1:ℚ) / 2 = 2 ^ (-1 : ℤ) := by norm_num
    rw [this, ← zpow_add₀ (two_ne_zero)]
    congr 1; ring
  calc (rhe (q * 2 ^ (52 - floorLog2 q)) : ℚ) * 2 ^ (floorLog2 q - 52)
      ≤ (q * 2 ^ (52 - floorLog2 q) + 1 / 2) * 2 ^ (floorLog2 q - 52) := h2
    _ = q + 2 ^ (floorLog2 q - 53) := by rw [add_mul, e1, e2]

/-- The rounding error of `rnd` is at most half an ulp (lower bound). -/
theorem err_le_rnd {q : ℚ} (hq : 0 < q) : q - 2 ^ (floorLog2 q - 53) ≤ rnd q := by
  rw [rnd_pos_eq hq]; unfold rndPos
  have hp : (0:ℚ) < 2 ^ (floorLog2 q - 52) := zpow_pos two_pos _
  have h1 := le_rhe (q * 2 ^ (52 - floorLog2 q))
  have h2 := mul_le_mul_of_nonneg_right h1 (le_of_lt hp)
  have e1 : q * 2 ^ (52 - floorLog2 q) * 2 ^ (floorLog2 q - 52) = q := by
    rw [mul_assoc, ← zpow_add₀ (two_ne_zero)]
    norm_num
  have e2 : (1:ℚ) / 2 * 2 ^ (floorLog2 q - 52) = 2 ^ (floorLog2 q - 53) := by
    have : (1:ℚ) / 2 = 2 ^ (-1 : ℤ) := by norm_num
    rw [this, ← zpow_add₀ (two_ne_zero)]
    congr 1; ring
  calc q - 2 ^ (floorLog2 q - 53)
      = (q * 2 ^ (52 - floorLog2 q) - 1 / 2) * 2 ^ (floorLog2 q - 52) := by
        rw [sub_mul, e1, e2]
    _ ≤ (rhe (q * 2 ^ (52 - floorLog2 q)) : ℚ) * 2 ^ (floorLog2 q - 52) := h2

/-- `rnd` is monotone on positives. -/
theorem rnd_mono_pos {p q : ℚ} (hp : 0 < p) (h : p ≤ q) : rnd p ≤ rnd q := by
  have hq : 0 < q := lt_of_lt_of_le hp h
  have hee : floorLog2 p ≤ floorLog2 q := by
    by_contra hc
    push_neg at hc
    have h1 := (floorLog2_spec hp).1
    have h2 := (floorLog2_spec hq).2
    have hh : (2:ℚ) ^ (floorLog2 q + 1) ≤ 2 ^ floorLog2 p :=
      zpow_le_zpow_right₀ one_le_two (by omega)
    linarith
  rcases eq_or_lt_of_le hee with heq | hlt
  · rw [rnd_pos_eq hp, rnd_pos_eq hq]
    unfold rndPos
    rw [heq]
    have hxm : p * 2 ^ (52 - floorLog2 q) ≤ q * 2 ^ (52 - floorLog2 q) :=
      mul_le_mul_of_nonneg_right h (le_of_lt (zpow_pos two_pos _))
    have hr := rhe_mono hxm
    apply mul_le_mul_of_nonneg_right _ (le_of_lt (zpow_pos two_pos _))
    exact_mod_cast hr
  · calc rnd p ≤ 2 ^ (floorLog2 p + 1) := rnd_le_pow hp
      _ ≤ 2 ^ floorLog2 q := zpow_le_zpow_right₀ one_le_two (by omega)
      _ ≤ rnd q := pow_le_rnd hq

/-- `rnd` is monotone. -/
theorem rnd_mono {p q : ℚ} (h : p ≤ q) : rnd p ≤ rnd q := by
  rcases lt_trichotomy 0 p with hp | hp | hp
  · exact rnd_mono_pos hp h
  · rw [← hp, rnd_zero]
    exact rnd_nonneg (by linarith)
  · rcases le_or_lt q 0 with hq | hq
    · rcases eq_or_lt_of_le hq with hq0 | hqneg
      · rw [hq0, rnd_zero]
        have h2 : (0:ℚ) ≤ -p := by linarith
        have h3 : 0 ≤ rnd (-p) := rnd_nonneg h2
        rw [rnd_neg] at h3
        linarith
      · have hmono := rnd_mono_pos (by linarith : (0:ℚ) < -q) (by linarith : -q ≤ -p)
        rw [rnd_neg, rnd_neg] at hmono
        linarith
    · have h1 : rnd p ≤ 0 := by
        have h2 : 0 ≤ rnd (-p) := rnd_nonneg (by linarith)
        rw [rnd_neg] at h2
        linarith
      exact le_trans h1 (rnd_nonneg (le_of_lt hq))

/-- Positive integers up to `2^53` are exactly representable. -/
theorem rnd_intCast_pos {n : ℤ} (h0 : 0 < n) (h : n ≤ 2 ^ 53) : rnd (n : ℚ) = n := by
  have hq : (0:ℚ) < (n:ℚ) := by exact_mod_cast h0
  have he : floorLog2 (n:ℚ) ≤ 53 := by
    apply floorLog2_le_of_lt hq
    have hn : (n:ℚ) ≤ ((2:ℤ)^(53:ℕ) : ℚ) := by exact_mod_cast h
    have h54 : ((2:ℤ)^(53:ℕ) : ℚ) < 2 ^ (53 + 1 : ℤ) := by norm_num
    linarith
  rcases le_or_lt (floorLog2 (n:ℚ)) 52 with h52 | h53
  · set e := floorLog2 (n:ℚ) with he'
    have hs : (0:ℤ) ≤ 52 - e := by omega
    have hx : (n:ℚ) * 2 ^ (52 - e) = ((n * 2 ^ (52 - e).toNat : ℤ) : ℚ) := by
      push_cast
      rw [← zpow_natCast (2:ℚ) (52 - e).toNat, Int.toNat_of_nonneg hs]
    rw [rnd_pos_eq hq]
    unfold rndPos
    rw [← he', hx, rhe_intCast]
    push_cast
    rw [← zpow_natCast (2:ℚ) (52 - e).toNat, Int.toNat_of_nonneg hs,
      mul_assoc, ← zpow_add₀ (two_ne_zero)]
    have e0 : 52 - e + (e - 52) = (0:ℤ) := by ring
    rw [e0, zpow_zero, mul_one]
  · have he53 : floorLog2 (n:ℚ) = 53 := by omega
    have h1 := (floorLog2_spec hq).1
    rw [he53] at h1
    have hn : n = 2 ^ 53 := by
      have h2 : (((2:ℤ) ^ (53:ℕ) : ℤ) : ℚ) ≤ (n:ℚ) := by
        have : ((2:ℚ) ^ (53:ℤ)) = (((2:ℤ) ^ (53:ℕ) : ℤ) : ℚ) := by norm_num
        rw [← this]; exact h1
      have h3 : (2:ℤ) ^ (53:ℕ) ≤ n := by exact_mod_cast h2
      omega
    subst hn
    rw [rnd_pos_eq hq]
    unfold rndPos
    rw [he53]
    have hx : (((2:ℤ)^(53:ℕ) : ℤ) : ℚ) * 2 ^ (52 - (53:ℤ)) = (((2:ℤ)^(52:ℕ) : ℤ) : ℚ) := by
      norm_num
    rw [hx, rhe_intCast]
    norm_num

/-- Integers of magnitude at most `2^53` are exactly representable in
binary64. -/
theorem rnd_intCast_exact {n : ℤ} (h : |n| ≤ 2 ^ 53) : rnd (n : ℚ) = n := by
  rcases lt_trichotomy n 0 with hn | hn | hn
  · have h1 : 0 < -n := by omega
    have h2 : -n ≤ 2 ^ 53 := by
      rw [abs_of_neg hn] at h
      exact h
    have h3 := rnd_intCast_pos h1 h2
    have h4 : ((-n : ℤ) : ℚ) = -(n : ℚ) := by push_cast; ring
    rw [h4, rnd_neg] at h3
    linarith
  · subst hn; push_cast; exact rnd_zero
  · exact rnd_intCast_pos hn (by rwa [abs_of_pos hn] at h)

/-- Integer lower bounds survive rounding when the exponent is at most
52 (the scaled integer is exactly representable). -/
theorem rnd_int_le {q : ℚ} (hq : 0 < q) (he : floorLog2 q ≤ 52) {k : ℤ}
    (hk : (k:ℚ) ≤ q) : (k:ℚ) ≤ rnd q := by
  set e := floorLog2 q with he'
  have hs : (0:ℤ) ≤ 52 - e := by omega
  have hps : (0:ℚ) < 2 ^ (52 - e) := zpow_pos two_pos _
  have hxk : ((k * 2 ^ (52 - e).toNat : ℤ) : ℚ) ≤ q * 2 ^ (52 - e) := by
    have hcast : ((k * 2 ^ (52 - e).toNat : ℤ) : ℚ) = (k:ℚ) * 2 ^ (52 - e) := by
      push_cast
      rw [← zpow_natCast (2:ℚ) (52 - e).toNat, Int.toNat_of_nonneg hs]
    rw [hcast]
    exact mul_le_mul_of_nonneg_right hk (le_of_lt hps)
  have hr := rhe_mono hxk
  rw [rhe_intCast] at hr
  rw [rnd_pos_eq hq]
  unfold rndPos
  rw [← he']
  have hr2 : ((k * 2 ^ (52 - e).toNat : ℤ) : ℚ) * 2 ^ (e - 52) ≤
      (rhe (q * 2 ^ (52 - e)) : ℚ) * 2 ^ (e - 52) := by
    apply mul_le_mul_of_nonneg_right _ (le_of_lt (zpow_pos two_pos _))
    exact_mod_cast hr
  have hcast2 : ((k * 2 ^ (52 - e).toNat : ℤ) : ℚ) * 2 ^ (e - 52) = (k:ℚ) := by
    push_cast
    rw [← zpow_natCast (2:ℚ) (52 - e).toNat, Int.toNat_of_nonneg hs,
      mul_assoc, ← zpow_add₀ (two_ne_zero)]
    have e0 : 52 - e + (e - 52) = (0:ℤ) := by ring
    rw [e0, zpow_zero, mul_one]
  rw [hcast2] at hr2
  exact hr2

/-- `pytrunc` on nonnegative rationals is the floor. -/
theorem pytrunc_nonneg {q : ℚ} (hq : 0 ≤ q) : pytrunc q = ⌊q⌋ := by
  unfold pytrunc; rw [if_pos hq]

/-- `pytrunc` of an integer cast is that integer. -/
theorem pytrunc_intCast (n : ℤ) : pytrunc (n : ℚ) = n := by
  unfold pytrunc
  rcases le_or_lt 0 n with h | h
  · rw [if_pos (by exact_mod_cast h), Int.floor_intCast]
  · rw [if_neg (by push_cast; exact not_le.mpr (by exact_mod_cast h))]
    have : (-(n:ℚ)) = ((-n : ℤ) : ℚ) := by push_cast; ring
    rw [this, Int.floor_intCast]
    ring

/-- Python `//` on integers with positive divisor is the rational floor. -/
theorem fdiv_eq_floor (a b : ℤ) (hb : 0 < b) : Int.fdiv a b = ⌊(a:ℚ) / (b:ℚ)⌋ := by
  rw [Int.fdiv_eq_ediv a (le_of_lt hb)]
  have hcast : (b:ℚ) = ((b.toNat : ℕ) : ℚ) := by
    have : ((b.toNat : ℕ) : ℤ) = b := Int.toNat_of_nonneg (le_of_lt hb)
    exact_mod_cast this.symm
  rw [hcast, Rat.floor_intCast_div_natCast]
  congr 1
  exact (Int.toNat_of_nonneg (le_of_lt hb)).symm

/- ===================== Concrete binary64 evaluations ================= -/

/-- Evaluate `rhe` when the fraction is below one half. -/
theorem rhe_eval_lt (x : ℚ) (k : ℤ) (h1 : (k:ℚ) ≤ x) (h2 : x < (k:ℚ) + 1 / 2) :
    rhe x = k := by
  have hf : ⌊x⌋ = k := by
    rw [Int.floor_eq_iff]
    exact ⟨h1, by push_cast; linarith⟩
  unfold rhe
  rw [hf, if_pos (show x - (k:ℚ) < 1 / 2 by linarith)]

/-- Evaluate `rhe` when the fraction is above one half. -/
theorem rhe_eval_gt (x : ℚ) (k : ℤ) (h1 : (k:ℚ) + 1 / 2 < x) (h2 : x < (k:ℚ) + 1) :
    rhe x = k + 1 := by
  have hf : ⌊x⌋ = k := by
    rw [Int.floor_eq_iff]
    exact ⟨by linarith, by push_cast; linarith⟩
  unfold rhe
  rw [hf, if_neg (show ¬ (x - (k:ℚ) < 1 / 2) by push_neg; linarith),
    if_pos (show (1:ℚ) / 2 < x - (k:ℚ) by linarith)]

/-- Evaluate `rhe` at an even tie. -/
theorem rhe_eval_tie_even (x : ℚ) (k : ℤ) (h1 : x = (k:ℚ) + 1 / 2) (h2 : 2 ∣ k) :
    rhe x = k := by
  have hf : ⌊x⌋ = k := by
    rw [Int.floor_eq_iff]
    exact ⟨by rw [h1]; linarith, by push_cast; rw [h1]; linarith⟩
  unfold rhe
  rw [hf, if_neg (show ¬ (x - (k:ℚ) < 1 / 2) by rw [h1]; push_neg; linarith),
    if_neg (show ¬ ((1:ℚ) / 2 < x - (k:ℚ)) by rw [h1]; push_neg; linarith),
    if_pos h2]

/-- Evaluate `rhe` at an odd tie. -/
theorem rhe_eval_tie_odd (x : ℚ) (k : ℤ) (h1 : x = (k:ℚ) + 1 / 2) (h2 : ¬ 2 ∣ k) :
    rhe x = k + 1 := by
  have hf : ⌊x⌋ = k := by
    rw [Int.floor_eq_iff]
    exact ⟨by rw [h1]; linarith, by push_cast; rw [h1]; linarith⟩
  unfold rhe
  rw [hf, if_neg (show ¬ (x - (k:ℚ) < 1 / 2) by rw [h1]; push_neg; linarith),
    if_neg (show ¬ ((1:ℚ) / 2 < x - (k:ℚ)) by rw [h1]; push_neg; linarith),
    if_neg h2]

/-- Evaluate `rnd` from a binade certificate and an `rhe` value. -/
theorem rnd_eval (q : ℚ) (e m : ℤ) (h1 : (2:ℚ) ^ e ≤ q) (h2 : q < 2 ^ (e + 1))
    (hm : rhe (q * 2 ^ (52 - e)) = m) : rnd q = (m : ℚ) * 2 ^ (e - 52) := by
  have hq : 0 < q := lt_of_lt_of_le (zpow_pos two_pos e) h1
  rw [rnd_pos_eq hq]
  unfold rndPos
  rw [floorLog2_unique h1 h2, hm]

/-- The binary64 value of the literal `0.003`. -/
theorem FEE_val : FEE_RATE_DEFAULT = 3458764513820541 / 1152921504606846976 := by
  have hx : (3 / 1000 : ℚ) * 2 ^ (52 - (-9:ℤ)) = 864691128455135232 / 125 := by norm_num
  have hm : rhe ((3 / 1000 : ℚ) * 2 ^ (52 - (-9:ℤ))) = 6917529027641082 := by
    rw [hx, rhe_eval_gt (864691128455135232 / 125) 6917529027641081 (by norm_num)
      (by norm_num)]
    norm_num
  have hr := rnd_eval (3 / 1000) (-9) 6917529027641082 (by norm_num) (by norm_num) hm
  unfold FEE_RATE_DEFAULT
  rw [hr]; norm_num

/-- The binary64 value of the literal `0.4`. -/
theorem MAX_SPREAD_val : MAX_SPREAD = 3602879701896397 / 9007199254740992 := by
  have hx : (2 / 5 : ℚ) * 2 ^ (52 - (-2:ℤ)) = 36028797018963968 / 5 := by norm_num
  have hm : rhe ((2 / 5 : ℚ) * 2 ^ (52 - (-2:ℤ))) = 7205759403792794 := by
    rw [hx, rhe_eval_gt (36028797018963968 / 5) 7205759403792793 (by norm_num)
      (by norm_num)]
    norm_num
  have hr := rnd_eval (2 / 5) (-2) 7205759403792794 (by norm_num) (by norm_num) hm
  unfold MAX_SPREAD
  rw [hr]; norm_num

/-- The binary64 value of `1 - 0.003` as computed by CPython. -/
theorem one_sub_fee_val :
    rnd (1 - FEE_RATE_DEFAULT) = 8980177656976769 / 9007199254740992 := by
  rw [FEE_val]
  have hx : ((1:ℚ) - 3458764513820541 / 1152921504606846976) * 2 ^ (52 - (-1:ℤ)) =
      8980177656976769 + 3 / 128 := by norm_num
  have hm : rhe (((1:ℚ) - 3458764513820541 / 1152921504606846976) * 2 ^ (52 - (-1:ℤ))) =
      8980177656976769 := by
    rw [hx]
    exact rhe_eval_lt (8980177656976769 + 3 / 128) 8980177656976769 (by norm_num)
      (by norm_num)
  have hr := rnd_eval ((1:ℚ) - 3458764513820541 / 1152921504606846976) (-1)
    8980177656976769 (by norm_num) (by norm_num) hm
  rw [hr]; norm_num

/-- `float(5629499534213117) * 0.4` rounds to exactly 2251799813685247,
one more than the exact `floor(0.4 * 5629499534213117)`. -/
theorem rnd_L0_spread : rnd ((5629499534213117 : ℚ) * MAX_SPREAD) = 2251799813685247 := by
  rw [MAX_SPREAD_val]
  have hx : (5629499534213117 : ℚ) * (3602879701896397 / 9007199254740992) *
      2 ^ (52 - (50:ℤ)) = 9007199254740987 + 1576259869579673 / 2251799813685248 := by
    norm_num
  have hm : rhe ((5629499534213117 : ℚ) * (3602879701896397 / 9007199254740992) *
      2 ^ (52 - (50:ℤ))) = 9007199254740988 := by
    rw [hx, rhe_eval_gt (9007199254740987 + 1576259869579673 / 2251799813685248)
      9007199254740987 (by norm_num) (by norm_num)]
    norm_num
  have hr := rnd_eval ((5629499534213117 : ℚ) * (3602879701896397 / 9007199254740992))
    50 9007199254740988 (by norm_num) (by norm_num) hm
  rw [hr]; norm_num

/-- `float(100731517277002) * (1 - 0.003)` rounds up to the integer
100429322725171, one more than the exact floor. -/
theorem rnd_dx0_fee :
    rnd ((100731517277002 : ℚ) * rnd (1 - FEE_RATE_DEFAULT)) = 100429322725171 := by
  rw [one_sub_fee_val]
  have hx : (100731517277002 : ℚ) * (8980177656976769 / 9007199254740992) *
      2 ^ (52 - (46:ℤ)) = 6427476654410943 + 42138368206117 / 70368744177664 := by
    norm_num
  have hm : rhe ((100731517277002 : ℚ) * (8980177656976769 / 9007199254740992) *
      2 ^ (52 - (46:ℤ))) = 6427476654410944 := by
    rw [hx, rhe_eval_gt (6427476654410943 + 42138368206117 / 70368744177664)
      6427476654410943 (by norm_num) (by norm_num)]
    norm_num
  have hr := rnd_eval ((100731517277002 : ℚ) * (8980177656976769 / 9007199254740992))
    46 6427476654410944 (by norm_num) (by norm_num) hm
  rw [hr]; norm_num

/-- `float(50) * (1 - 0.003)` in binary64. -/
theorem rnd_50_fee :
    rnd ((50 : ℚ) * rnd (1 - FEE_RATE_DEFAULT)) = 7015763794513101 / 140737488355328 := by
  rw [one_sub_fee_val]
  have hx : (50 : ℚ) * (8980177656976769 / 9007199254740992) * 2 ^ (52 - (5:ℤ)) =
      7015763794513100 + 25 / 32 := by norm_num
  have hm : rhe ((50 : ℚ) * (8980177656976769 / 9007199254740992) * 2 ^ (52 - (5:ℤ))) =
      7015763794513101 := by
    rw [hx, rhe_eval_gt (7015763794513100 + 25 / 32) 7015763794513100 (by norm_num)
      (by norm_num)]
    norm_num
  have hr := rnd_eval ((50 : ℚ) * (8980177656976769 / 9007199254740992)) 5
    7015763794513101 (by norm_num) (by norm_num) hm
  rw [hr]; norm_num

/-- `float(200) * (1 - 0.003)` in binary64. -/
theorem rnd_200_fee :
    rnd ((200 : ℚ) * rnd (1 - FEE_RATE_DEFAULT)) = 7015763794513101 / 35184372088832 := by
  rw [one_sub_fee_val]
  have hx : (200 : ℚ) * (8980177656976769 / 9007199254740992) * 2 ^ (52 - (7:ℤ)) =
      7015763794513100 + 25 / 32 := by norm_num
  have hm : rhe ((200 : ℚ) * (8980177656976769 / 9007199254740992) * 2 ^ (52 - (7:ℤ))) =
      7015763794513101 := by
    rw [hx, rhe_eval_gt (7015763794513100 + 25 / 32) 7015763794513100 (by norm_num)
      (by norm_num)]
    norm_num
  have hr := rnd_eval ((200 : ℚ) * (8980177656976769 / 9007199254740992)) 7
    7015763794513101 (by norm_num) (by norm_num) hm
  rw [hr]; norm_num

/-- `float(2^53 + 3)` rounds (tie to even) up to `2^53 + 4`. -/
theorem rnd_odd_tie : rnd ((9007199254740995 : ℚ)) = 9007199254740996 := by
  have hx : (9007199254740995 : ℚ) * 2 ^ (52 - (53:ℤ)) = 4503599627370497 + 1 / 2 := by
    norm_num
  have hm : rhe ((9007199254740995 : ℚ) * 2 ^ (52 - (53:ℤ))) = 4503599627370498 := by
    rw [hx, rhe_eval_tie_odd (4503599627370497 + 1 / 2) 4503599627370497 (by norm_num)
      (by omega)]
    norm_num
  have hr := rnd_eval (9007199254740995 : ℚ) 53 4503599627370498 (by norm_num)
    (by norm_num) hm
  rw [hr]; norm_num

/-- The binary64 value of `7 / 100` (the double of `0.07`). -/
theorem rnd_7_over_100 : rnd ((7 : ℚ) / 100) = 1261007895663739 / 18014398509481984 := by
  have hx : ((7:ℚ) / 100) * 2 ^ (52 - (-4:ℤ)) = 5044031582654955 + 13 / 25 := by norm_num
  have hm : rhe (((7:ℚ) / 100) * 2 ^ (52 - (-4:ℤ))) = 5044031582654956 := by
    rw [hx, rhe_eval_gt (5044031582654955 + 13 / 25) 5044031582654955 (by norm_num)
      (by norm_num)]
    norm_num
  have hr := rnd_eval ((7:ℚ) / 100) (-4) 5044031582654956 (by norm_num) (by norm_num) hm
  rw [hr]; norm_num

/-- The binary64 value of `1 - 0.07` (an even tie). -/
theorem rnd_one_sub_007 :
    rnd (1 - 1261007895663739 / 18014398509481984) = 4188347653454561 / 4503599627370496 := by
  have hx : ((1:ℚ) - 1261007895663739 / 18014398509481984) * 2 ^ (52 - (-1:ℤ)) =
      8376695306909122 + 1 / 2 := by norm_num
  have hm : rhe (((1:ℚ) - 1261007895663739 / 18014398509481984) * 2 ^ (52 - (-1:ℤ))) =
      8376695306909122 := by
    rw [hx]
    exact rhe_eval_tie_even (8376695306909122 + 1 / 2) 8376695306909122 (by norm_num)
      (by omega)
  have hr := rnd_eval ((1:ℚ) - 1261007895663739 / 18014398509481984) (-1)
    8376695306909122 (by norm_num) (by norm_num) hm
  rw [hr]; norm_num

/-- `float(1000) * (1 - 0.07)` rounds just below 930. -/
theorem rnd_1000_sub007 :
    rnd ((1000 : ℚ) * (4188347653454561 / 4503599627370496)) =
      8180366510653439 / 8796093022208 := by
  have hx : (1000 : ℚ) * (4188347653454561 / 4503599627370496) * 2 ^ (52 - (9:ℤ)) =
      8180366510653439 + 29 / 64 := by norm_num
  have hm : rhe ((1000 : ℚ) * (4188347653454561 / 4503599627370496) * 2 ^ (52 - (9:ℤ))) =
      8180366510653439 := by
    rw [hx]
    exact rhe_eval_lt (8180366510653439 + 29 / 64) 8180366510653439 (by norm_num)
      (by norm_num)
  have hr := rnd_eval ((1000 : ℚ) * (4188347653454561 / 4503599627370496)) 9
    8180366510653439 (by norm_num) (by norm_num) hm
  rw [hr]; norm_num

/- ===================== AMM helper lemmas ============================= -/

/-- With a fee in `[0,1]` and a nonnegative amount, the float-computed
`input_amount_with_fee` is nonnegative. -/
theorem input_amount_with_fee_nonneg {dx : ℤ} {fee : ℚ} (hdx : 0 ≤ dx)
    (h0 : 0 ≤ fee) (h1 : fee ≤ 1) : 0 ≤ AMM.input_amount_with_fee dx fee := by
  unfold AMM.input_amount_with_fee
  have h2 : (0:ℚ) ≤ rnd (dx : ℚ) := rnd_nonneg (by exact_mod_cast hdx)
  have h3 : (0:ℚ) ≤ rnd (1 - fee) := rnd_nonneg (by linarith)
  have h4 : (0:ℚ) ≤ rnd (rnd (dx : ℚ) * rnd (1 - fee)) := rnd_nonneg (mul_nonneg h2 h3)
  rw [pytrunc_nonneg h4]
  exact Int.le_floor.mpr (by exact_mod_cast h4)

/-- With a fee in `[0,1]`, the float-computed `input_amount_with_fee` is
monotone on nonnegative amounts. -/
theorem input_amount_with_fee_mono {a b : ℤ} {fee : ℚ} (ha : 0 ≤ a) (hab : a ≤ b)
    (h0 : 0 ≤ fee) (h1 : fee ≤ 1) :
    AMM.input_amount_with_fee a fee ≤ AMM.input_amount_with_fee b fee := by
  unfold AMM.input_amount_with_fee
  have hm0 : (0:ℚ) ≤ rnd (1 - fee) := rnd_nonneg (by linarith)
  have h2 : rnd (a : ℚ) ≤ rnd (b : ℚ) := rnd_mono (by exact_mod_cast hab)
  have h3 : rnd (a : ℚ) * rnd (1 - fee) ≤ rnd (b : ℚ) * rnd (1 - fee) :=
    mul_le_mul_of_nonneg_right h2 hm0
  have h4 := rnd_mono h3
  have ha4 : (0:ℚ) ≤ rnd (rnd (a : ℚ) * rnd (1 - fee)) :=
    rnd_nonneg (mul_nonneg (rnd_nonneg (by exact_mod_cast ha)) hm0)
  have hb4 : (0:ℚ) ≤ rnd (rnd (b : ℚ) * rnd (1 - fee)) := le_trans ha4 h4
  rw [pytrunc_nonneg ha4, pytrunc_nonneg hb4]
  exact Int.floor_le_floor h4

/-- On positive reserves and a nonnegative fee-adjusted amount, the swap
output is the rational floor of the constant-product quotient. -/
theorem swap_output_formula {dx x y : ℤ} {fee : ℚ} (hx : 0 < x) (hy : 0 < y)
    (hdxf : 0 ≤ AMM.input_amount_with_fee dx fee) :
    AMM.calculate_swap_output dx x y fee =
      ⌊((y * AMM.input_amount_with_fee dx fee : ℤ) : ℚ) /
        ((x + AMM.input_amount_with_fee dx fee : ℤ) : ℚ)⌋ := by
  unfold AMM.calculate_swap_output
  rw [if_neg (by push_neg; omega)]
  show (if x + AMM.input_amount_with_fee dx fee ≤ 0 then 0
    else Int.fdiv (y * AMM.input_amount_with_fee dx fee)
      (x + AMM.input_amount_with_fee dx fee)) = _
  rw [if_neg (by omega)]
  exact fdiv_eq_floor _ _ (by omega)

/-- The constant-product quotient is monotone in the fee-adjusted
amount. -/
theorem swap_quotient_mono {x y s t : ℤ} (hx : 0 < x) (hy : 0 < y) (hs : 0 ≤ s)
    (hst : s ≤ t) :
    ⌊((y * s : ℤ) : ℚ) / ((x + s : ℤ) : ℚ)⌋ ≤ ⌊((y * t : ℤ) : ℚ) / ((x + t : ℤ) : ℚ)⌋ := by
  apply Int.floor_le_floor
  have hxs : (0:ℚ) < ((x + s : ℤ) : ℚ) := by exact_mod_cast (by omega : 0 < x + s)
  have hxt : (0:ℚ) < ((x + t : ℤ) : ℚ) := by exact_mod_cast (by omega : 0 < x + t)
  rw [div_le_div_iff₀ hxs hxt]
  push_cast
  have hxq : (0:ℚ) < (x : ℚ) := by exact_mod_cast hx
  have hyq : (0:ℚ) < (y : ℚ) := by exact_mod_cast hy
  have hstq : (s:ℚ) ≤ (t:ℚ) := by exact_mod_cast hst
  nlinarith [mul_nonneg (mul_nonneg hyq.le hxq.le) (sub_nonneg.mpr hstq)]

/-- `int(float(100731517277002) * (1 - 0.003))` in CPython is
100429322725171 — one above the exact `floor`. -/
theorem dxf_dx0 :
    AMM.input_amount_with_fee 100731517277002 FEE_RATE_DEFAULT = 100429322725171 := by
  unfold AMM.input_amount_with_fee
  have hint : rnd (((100731517277002 : ℤ) : ℚ)) = ((100731517277002 : ℤ) : ℚ) :=
    rnd_intCast_exact (by norm_num)
  have hc : ((100731517277002 : ℤ) : ℚ) = (100731517277002 : ℚ) := by norm_num
  rw [hc] at hint
  rw [hc, hint, rnd_dx0_fee]
  have h2 : (100429322725171 : ℚ) = ((100429322725171 : ℤ) : ℚ) := by norm_num
  rw [h2, pytrunc_intCast]

/-- `int(float(-50) * (1 - 0.003))` in CPython is -49 (truncation toward
zero). -/
theorem dxf_neg50 : AMM.input_amount_with_fee (-50) FEE_RATE_DEFAULT = -49 := by
  unfold AMM.input_amount_with_fee
  have hc : ((-50 : ℤ) : ℚ) = -(50 : ℚ) := by norm_num
  have hint : rnd (-(50 : ℚ)) = -(50 : ℚ) := by
    have h := rnd_intCast_exact (show |(50:ℤ)| ≤ 2 ^ 53 by norm_num)
    have h2 : ((50 : ℤ) : ℚ) = (50 : ℚ) := by norm_num
    rw [h2] at h
    rw [rnd_neg, h]
  rw [hc, hint]
  have hneg : -(50 : ℚ) * rnd (1 - FEE_RATE_DEFAULT) =
      -((50 : ℚ) * rnd (1 - FEE_RATE_DEFAULT)) := by ring
  rw [hneg, rnd_neg, rnd_50_fee]
  unfold pytrunc
  rw [if_neg (by norm_num), neg_neg]
  have hfl : ⌊(7015763794513101 : ℚ) / 140737488355328⌋ = 49 := by
    rw [Int.floor_eq_iff] <;> norm_num
  rw [hfl]

/-- `int(float(-200) * (1 - 0.003))` in CPython is -199. -/
theorem dxf_neg200 : AMM.input_amount_with_fee (-200) FEE_RATE_DEFAULT = -199 := by
  unfold AMM.input_amount_with_fee
  have hc : ((-200 : ℤ) : ℚ) = -(200 : ℚ) := by norm_num
  have hint : rnd (-(200 : ℚ)) = -(200 : ℚ) := by
    have h := rnd_intCast_exact (show |(200:ℤ)| ≤ 2 ^ 53 by norm_num)
    have h2 : ((200 : ℤ) : ℚ) = (200 : ℚ) := by norm_num
    rw [h2] at h
    rw [rnd_neg, h]
  rw [hc, hint]
  have hneg : -(200 : ℚ) * rnd (1 - FEE_RATE_DEFAULT) =
      -((200 : ℚ) * rnd (1 - FEE_RATE_DEFAULT)) := by ring
  rw [hneg, rnd_neg, rnd_200_fee]
  unfold pytrunc
  rw [if_neg (by norm_num), neg_neg]
  have hfl : ⌊(7015763794513101 : ℚ) / 35184372088832⌋ = 199 := by
    rw [Int.floor_eq_iff] <;> norm_num
  rw [hfl]

/- ===================== Claim C3 ====================================== -/

/-- C3 (counterexample): the claim says `swapOutput` equals the exact
constant-product value with `dxf = floor(dx * (1 - fee))` computed with
no floating point.  At `dx = 100731517277002`, reserves `10^20`, the
float product `dx * (1 - 0.003)` rounds **up** to 100429322725171, one
above the exact floor (100429322725170, for the exact fee 3/1000 and for
the binary64 fee alike), and the source returns 100429221864783 where
the claimed formula gives 100429221864782. -/
theorem C3_counterexample :
    AMM.calculate_swap_output 100731517277002 (10 ^ 20) (10 ^ 20) FEE_RATE_DEFAULT =
        100429221864783 ∧
      swapOutput_spec 100731517277002 (10 ^ 20) (10 ^ 20) (3 / 1000) = 100429221864782 ∧
      swapOutput_spec 100731517277002 (10 ^ 20) (10 ^ 20) FEE_RATE_DEFAULT =
        100429221864782 ∧
      (100429221864783 : ℤ) ≠ 100429221864782 := by
  refine ⟨?_, ?_, ?_, by decide⟩
  · unfold AMM.calculate_swap_output
    rw [dxf_dx0, if_neg (by norm_num)]
    show (if (10 ^ 20 : ℤ) + 100429322725171 ≤ 0 then 0
      else Int.fdiv ((10 ^ 20 : ℤ) * 100429322725171) ((10 ^ 20 : ℤ) + 100429322725171)) =
        100429221864783
    rw [if_neg (by norm_num)]
    decide
  · unfold swapOutput_spec
    rw [if_neg (by norm_num)]
    have hfl : ⌊((100731517277002 : ℤ) : ℚ) * (1 - 3 / 1000)⌋ = 100429322725170 := by
      rw [Int.floor_eq_iff]
      push_cast
      norm_num
    rw [hfl]
    show (if (10 ^ 20 : ℤ) + 100429322725170 ≤ 0 then 0
      else Int.fdiv ((10 ^ 20 : ℤ) * 100429322725170) ((10 ^ 20 : ℤ) + 100429322725170)) =
        100429221864782
    rw [if_neg (by norm_num)]
    decide
  · unfold swapOutput_spec
    rw [if_neg (by norm_num)]
    have hfl : ⌊((100731517277002 : ℤ) : ℚ) * (1 - FEE_RATE_DEFAULT)⌋ = 100429322725170 := by
      rw [FEE_val, Int.floor_eq_iff]
      push_cast
      norm_num
    rw [hfl]
    show (if (10 ^ 20 : ℤ) + 100429322725170 ≤ 0 then 0
      else Int.fdiv ((10 ^ 20 : ℤ) * 100429322725170) ((10 ^ 20 : ℤ) + 100429322725170)) =
        100429221864782
    rw [if_neg (by norm_num)]
    decide

/-- C3 (amended): `AMM.calculate_swap_output` returns 0 when either
reserve is nonpositive, and otherwise (for nonnegative amount and a fee
in `[0,1]`) equals the exact integer floor of `y * dxf / (x + dxf)` —
but with `dxf = int(dx * (1 - fee))` computed in binary64 (which can
exceed the exact `floor(dx * (1 - fee))`, see the counterexample); the
constant-product division itself is exact floor division that never
over-credits. -/
theorem C3_amended (dx x y : ℤ) (fee : ℚ) :
    ((x ≤ 0 ∨ y ≤ 0) → AMM.calculate_swap_output dx x y fee = 0) ∧
    (0 < x → 0 < y → 0 ≤ dx → 0 ≤ fee → fee ≤ 1 →
      AMM.calculate_swap_output dx x y fee =
        ⌊((y * AMM.input_amount_with_fee dx fee : ℤ) : ℚ) /
          ((x + AMM.input_amount_with_fee dx fee : ℤ) : ℚ)⌋) := by
  constructor
  · intro h
    unfold AMM.calculate_swap_output
    rw [if_pos h]
  · intro hx hy hdx h0 h1
    exact swap_output_formula hx hy (input_amount_with_fee_nonneg hdx h0 h1)

/-- Witness for C3 (amended) at concrete inputs. -/
theorem C3_amended_witness :
    AMM.calculate_swap_output 10 100 100 FEE_RATE_DEFAULT =
      ⌊((100 * AMM.input_amount_with_fee 10 FEE_RATE_DEFAULT : ℤ) : ℚ) /
        ((100 + AMM.input_amount_with_fee 10 FEE_RATE_DEFAULT : ℤ) : ℚ)⌋ :=
  (C3_amended 10 100 100 FEE_RATE_DEFAULT).2 (by norm_num) (by norm_num) (by norm_num)
    (by rw [FEE_val]; norm_num) (by rw [FEE_val]; norm_num)

/- ===================== Claim C6 ====================================== -/

/-- C6 (counterexample): for fixed positive reserves `x = y = 100` and the
default fee, monotonicity fails on negative input amounts:
`calculate_swap_output (-200) = 0` (the denominator guard fires) while
`calculate_swap_output (-50) = -97`, so `a ≤ b` does not give
`f a ≤ f b`. -/
theorem C6_counterexample :
    (-200 : ℤ) ≤ -50 ∧
    AMM.calculate_swap_output (-200) 100 100 FEE_RATE_DEFAULT = 0 ∧
    AMM.calculate_swap_output (-50) 100 100 FEE_RATE_DEFAULT = -97 ∧
    ¬ (AMM.calculate_swap_output (-200) 100 100 FEE_RATE_DEFAULT ≤
        AMM.calculate_swap_output (-50) 100 100 FEE_RATE_DEFAULT) := by
  have h200 : AMM.calculate_swap_output (-200) 100 100 FEE_RATE_DEFAULT = 0 := by
    unfold AMM.calculate_swap_output
    rw [dxf_neg200, if_neg (by norm_num)]
    show (if (100 : ℤ) + -199 ≤ 0 then 0 else Int.fdiv (100 * -199) (100 + -199)) = 0
    rw [if_pos (by norm_num)]
  have h50 : AMM.calculate_swap_output (-50) 100 100 FEE_RATE_DEFAULT = -97 := by
    unfold AMM.calculate_swap_output
    rw [dxf_neg50, if_neg (by norm_num)]
    show (if (100 : ℤ) + -49 ≤ 0 then 0 else Int.fdiv (100 * -49) (100 + -49)) = -97
    rw [if_neg (by norm_num)]
    decide
  refine ⟨by norm_num, h200, h50, ?_⟩
  rw [h200, h50]
  norm_num

/-- C6 (amended): for fixed positive reserves and a fee rate in `[0,1]`,
`calculate_swap_output` is monotone non-decreasing on **nonnegative**
input amounts `0 ≤ a ≤ b`. -/
theorem C6_amended (x y a b : ℤ) (fee : ℚ) (hx : 0 < x) (hy : 0 < y)
    (h0 : 0 ≤ fee) (h1 : fee ≤ 1) (ha : 0 ≤ a) (hab : a ≤ b) :
    AMM.calculate_swap_output a x y fee ≤ AMM.calculate_swap_output b x y fee := by
  have hfa := input_amount_with_fee_nonneg ha h0 h1
  have hfb : 0 ≤ AMM.input_amount_with_fee b fee :=
    input_amount_with_fee_nonneg (le_trans ha hab) h0 h1
  rw [swap_output_formula hx hy hfa, swap_output_formula hx hy hfb]
  exact swap_quotient_mono hx hy hfa (input_amount_with_fee_mono ha hab h0 h1)

/-- Witness for C6 (amended) at concrete inputs. -/
theorem C6_amended_witness :
    AMM.calculate_swap_output 5 100 100 FEE_RATE_DEFAULT ≤
      AMM.calculate_swap_output 10 100 100 FEE_RATE_DEFAULT :=
  C6_amended 100 100 5 10 FEE_RATE_DEFAULT (by norm_num) (by norm_num)
    (by rw [FEE_val]; norm_num) (by rw [FEE_val]; norm_num) (by norm_num) (by norm_num)

/- ===================== Claim C5 ====================================== -/

/-- `float(9007199254740996)`-sized even integers round exactly (needed
because `2^53 + 4` exceeds the `rnd_intCast_exact` range). -/
theorem rnd_even_exact : rnd ((9007199254740996 : ℚ)) = 9007199254740996 := by
  have hx : (9007199254740996 : ℚ) * 2 ^ (52 - (53:ℤ)) = ((4503599627370498 : ℤ) : ℚ) := by
    norm_num
  have hm : rhe ((9007199254740996 : ℚ) * 2 ^ (52 - (53:ℤ))) = 4503599627370498 := by
    rw [hx, rhe_intCast]
  have hr := rnd_eval (9007199254740996 : ℚ) 53 4503599627370498 (by norm_num)
    (by norm_num) hm
  rw [hr]; norm_num

/-- C5 (counterexample): the claim says `apply_slippage_tolerance`
returns exactly `floor(amount * (100 - t) / 100)` for every amount and
tolerance, in particular the amount unchanged at `t = 0`.  Both parts
fail: at `t = 0`, `amount = 2^53 + 3` the conversion to binary64 rounds
the amount up and the function returns `2^53 + 4`; at `t = 7`,
`amount = 1000` the float chain `1000 * (1 - 7/100)` lands just below
930 and truncation returns 929 instead of the exact 930. -/
theorem C5_counterexample :
    AMM.apply_slippage_tolerance 9007199254740995 0 = 9007199254740996 ∧
    Int.fdiv (9007199254740995 * (100 - 0)) 100 = 9007199254740995 ∧
    AMM.apply_slippage_tolerance 1000 7 = 929 ∧
    Int.fdiv (1000 * (100 - 7)) 100 = 930 ∧
    (9007199254740996 : ℤ) ≠ 9007199254740995 ∧ (929 : ℤ) ≠ 930 := by
  refine ⟨?_, by decide, ?_, by decide, by decide, by decide⟩
  · unfold AMM.apply_slippage_tolerance
    have hz : ((0 : ℚ) / 100) = 0 := by norm_num
    rw [hz, rnd_zero, sub_zero]
    have h1q : rnd (1 : ℚ) = 1 := by
      have h := rnd_intCast_exact (show |(1:ℤ)| ≤ 2 ^ 53 by norm_num)
      exact_mod_cast h
    rw [h1q, mul_one]
    have hc : ((9007199254740995 : ℤ) : ℚ) = (9007199254740995 : ℚ) := by norm_num
    rw [hc, rnd_odd_tie, rnd_even_exact]
    have h2 : (9007199254740996 : ℚ) = ((9007199254740996 : ℤ) : ℚ) := by norm_num
    rw [h2, pytrunc_intCast]
  · unfold AMM.apply_slippage_tolerance
    have hc7 : ((7 : ℚ) / 100) = (7 : ℚ) / 100 := rfl
    rw [rnd_7_over_100, rnd_one_sub_007]
    have hc : ((1000 : ℤ) : ℚ) = (1000 : ℚ) := by norm_num
    have hint : rnd ((1000 : ℚ)) = (1000 : ℚ) := by
      have h := rnd_intCast_exact (show |(1000:ℤ)| ≤ 2 ^ 53 by norm_num)
      exact_mod_cast h
    rw [hc, hint, rnd_1000_sub007]
    unfold pytrunc
    rw [if_pos (by norm_num)]
    rw [Int.floor_eq_iff]
    constructor
    · push_cast; norm_num
    · push_cast; norm_num

/-- C5 (amended): `apply_slippage_tolerance` evaluates
`int(amount * (1 - t/100))` in binary64 rather than exact rational
arithmetic; the claimed exact identity survives at tolerance 0 for every
amount up to `2^53` (where the conversion to double is exact): there the
function returns the amount unchanged. -/
theorem C5_amended (amount : ℤ) (h0 : 0 ≤ amount) (h1 : amount ≤ 2 ^ 53) :
    AMM.apply_slippage_tolerance amount 0 = amount := by
  unfold AMM.apply_slippage_tolerance
  have hz : ((0 : ℚ) / 100) = 0 := by norm_num
  rw [hz, rnd_zero, sub_zero]
  have h1q : rnd (1 : ℚ) = 1 := by
    have h := rnd_intCast_exact (show |(1:ℤ)| ≤ 2 ^ 53 by norm_num)
    exact_mod_cast h
  rw [h1q, mul_one]
  have hex : rnd ((amount : ℤ) : ℚ) = ((amount : ℤ) : ℚ) :=
    rnd_intCast_exact (by rw [abs_of_nonneg h0]; exact h1)
  rw [hex, hex, pytrunc_intCast]

/-- Witness for C5 (amended) at a concrete amount. -/
theorem C5_amended_witness : AMM.apply_slippage_tolerance 12345 0 = 12345 :=
  C5_amended 12345 (by norm_num) (by norm_num)

/- ===================== Claim C7 ====================================== -/

/-- C7: `calculate_price_impact` is always nonnegative; it returns 0 when
the input amount or either reserve is nonpositive; and on positive
inputs it returns exactly `max 0` of the (binary64-computed) relative
difference between the marginal price `y/x` and the realized average
price `out/dx`, scaled by 100 — negative computed impact is clamped to 0,
never reported. -/
theorem C7_price_impact (dx x y : ℤ) :
    0 ≤ AMM.calculate_price_impact dx x y ∧
    ((dx ≤ 0 ∨ x ≤ 0 ∨ y ≤ 0) → AMM.calculate_price_impact dx x y = 0) ∧
    (0 < dx → 0 < x → 0 < y →
      AMM.calculate_price_impact dx x y =
        max 0 (rnd (rnd (rnd (rnd ((y : ℚ) / (x : ℚ)) -
          rnd ((AMM.calculate_swap_output dx x y FEE_RATE_DEFAULT : ℤ) / (dx : ℚ))) /
            rnd ((y : ℚ) / (x : ℚ))) * 100))) := by
  refine ⟨?_, ?_, ?_⟩
  · unfold AMM.calculate_price_impact
    split_ifs <;> try simp [le_max_left]
    all_goals split_ifs <;> simp [le_max_left]
  · intro h
    unfold AMM.calculate_price_impact
    by_cases hxy : x ≤ 0 ∨ y ≤ 0
    · rw [if_pos hxy]
    · rw [if_neg hxy]
      push_neg at hxy
      have hdx : dx ≤ 0 := by
        rcases h with h | h | h
        · exact h
        · exact absurd h (not_le.mpr hxy.1)
        · exact absurd h (not_le.mpr hxy.2)
      show (if dx ≤ 0 then (0:ℚ) else _) = 0
      rw [if_pos hdx]
  · intro hdx hx hy
    unfold AMM.calculate_price_impact
    rw [if_neg (by push_neg; omega)]
    show (if dx ≤ 0 then (0:ℚ) else
      if rnd ((y : ℚ) / (x : ℚ)) ≤ 0 then 0 else
        max 0 (rnd (rnd (rnd (rnd ((y : ℚ) / (x : ℚ)) -
          rnd ((AMM.calculate_swap_output dx x y FEE_RATE_DEFAULT : ℤ) / (dx : ℚ))) /
            rnd ((y : ℚ) / (x : ℚ))) * 100))) = _
    have hcp : 0 < rnd ((y : ℚ) / (x : ℚ)) := by
      apply rnd_pos
      apply div_pos
      · exact_mod_cast hy
      · exact_mod_cast hx
    rw [if_neg (by omega), if_neg (not_le.mpr hcp)]

/-- Witness for C7 at a concrete guarded input. -/
theorem C7_witness : AMM.calculate_price_impact (-1) 100 100 = 0 :=
  (C7_price_impact (-1) 100 100).2.1 (Or.inl (by norm_num))

/- ===================== Claim C1 ====================================== -/

/-- For liquidity up to `10^15`, the float-computed spread cap
`int(L * 0.4)` coincides with the exact `floor(0.4 * L) = (2*L) // 5`. -/
theorem max_trade_exact {L : ℤ} (hL : 0 < L) (hL2 : L ≤ 10 ^ 15) :
    max_trade_amount L = Int.fdiv (2 * L) 5 := by
  unfold max_trade_amount
  rw [if_pos hL]
  have hLex : rnd ((L : ℤ) : ℚ) = ((L : ℤ) : ℚ) := by
    apply rnd_intCast_exact
    rw [abs_of_pos hL]
    calc L ≤ 10 ^ 15 := hL2
      _ ≤ 2 ^ 53 := by norm_num
  rw [hLex, MAX_SPREAD_val]
  set q : ℚ := (L : ℚ) * (3602879701896397 / 9007199254740992) with hq
  set k : ℤ := Int.fdiv (2 * L) 5 with hk
  have hk5 : k = (2 * L) / 5 := Int.fdiv_eq_ediv _ (by norm_num)
  have hmod := Int.ediv_add_emod (2 * L) 5
  have hmodlt : (2 * L) % 5 < 5 := Int.emod_lt_of_pos _ (by norm_num)
  have hmodnn : 0 ≤ (2 * L) % 5 := Int.emod_nonneg _ (by norm_num)
  have h2L : 2 * (L : ℚ) = 5 * (k : ℚ) + (((2 * L) % 5 : ℤ) : ℚ) := by
    rw [hk5]
    exact_mod_cast hmod.symm
  have hrq1 : (0:ℚ) ≤ (((2 * L) % 5 : ℤ) : ℚ) := by exact_mod_cast hmodnn
  have hrq2 : (((2 * L) % 5 : ℤ) : ℚ) ≤ 4 := by exact_mod_cast (by omega : (2 * L) % 5 ≤ 4)
  have hLq : (0:ℚ) < (L : ℚ) := by exact_mod_cast hL
  have hLq2 : (L : ℚ) ≤ 10 ^ 15 := by exact_mod_cast hL2
  have hqval : q = 2 * (L : ℚ) / 5 + (L : ℚ) / (5 * 9007199254740992) := by
    rw [hq]; ring
  have hqpos : 0 < q := by
    rw [hq]; positivity
  have htiny : (L : ℚ) / (5 * 9007199254740992) ≤ 1 / 32 := by
    rw [div_le_div_iff₀ (by norm_num) (by norm_num)]
    linarith
  have hkq1 : (k : ℚ) ≤ 2 * (L : ℚ) / 5 := by
    rw [le_div_iff₀ (by norm_num : (0:ℚ) < 5)]
    linarith
  have hkq2 : 2 * (L : ℚ) / 5 ≤ (k : ℚ) + 4 / 5 := by
    rw [div_le_iff₀ (by norm_num : (0:ℚ) < 5)]
    linarith
  have hqlt : q < 2 ^ ((48:ℤ) + 1) := by
    have hpow : (2:ℚ) ^ ((48:ℤ) + 1) = 562949953421312 := by norm_num
    rw [hpow, hqval]
    have h1 : 2 * (L : ℚ) / 5 ≤ 400000000000000 := by
      rw [div_le_iff₀ (by norm_num : (0:ℚ) < 5)]
      linarith
    linarith
  have he : floorLog2 q ≤ 48 := floorLog2_le_of_lt hqpos hqlt
  have herr : rnd q ≤ q + 2 ^ ((48:ℤ) - 53) := by
    have h1 := rnd_le_err hqpos
    have h2 : (2:ℚ) ^ (floorLog2 q - 53) ≤ 2 ^ ((48:ℤ) - 53) :=
      zpow_le_zpow_right₀ one_le_two (by omega)
    linarith
  have h32 : (2:ℚ) ^ ((48:ℤ) - 53) = 1 / 32 := by norm_num
  have hkle : (k : ℚ) ≤ rnd q := by
    apply rnd_int_le hqpos (by omega)
    rw [hqval]
    have : (0:ℚ) ≤ (L : ℚ) / (5 * 9007199254740992) := by positivity
    linarith
  have hup : rnd q < (k : ℚ) + 1 := by
    rw [h32] at herr
    linarith
  have hrnn : 0 ≤ rnd q := rnd_nonneg (le_of_lt hqpos)
  rw [pytrunc_nonneg hrnn]
  rw [Int.floor_eq_iff]
  exact ⟨hkle, by push_cast; linarith⟩

/-- The float-computed spread cap at liquidity 5629499534213117 is
2251799813685247 — one above the exact `floor(0.4 * L)`. -/
theorem max_trade_L0 : max_trade_amount 5629499534213117 = 2251799813685247 := by
  unfold max_trade_amount
  rw [if_pos (by norm_num)]
  have hLex : rnd ((5629499534213117 : ℤ) : ℚ) = ((5629499534213117 : ℤ) : ℚ) :=
    rnd_intCast_exact (by norm_num)
  have hc : ((5629499534213117 : ℤ) : ℚ) = (5629499534213117 : ℚ) := by norm_num
  rw [hc] at hLex
  rw [hc, hLex, rnd_L0_spread]
  have h2 : (2251799813685247 : ℚ) = ((2251799813685247 : ℤ) : ℚ) := by norm_num
  rw [h2, pytrunc_intCast]

/-- C1 (counterexample): with reported liquidity `L = 5629499534213117`
and requested amount `2251799813685247 = floor(0.4*L) + 1`, the claim
demands rejection (the amount strictly exceeds `0.4 * L`), but the source
accepts: the binary64 product `L * 0.4` rounds up to exactly
2251799813685247, so the spread check passes. -/
theorem C1_counterexample :
    validate_trade_quote "1" true true (some 2251799813685247)
        ⟨true, false, 5629499534213117⟩ =
      (ValidationResult.accepted 5629499534213117 2251799813685247,
        [NetCall.read "get_quote"]) ∧
    ¬ ((2251799813685247 : ℚ) ≤ 2 / 5 * 5629499534213117) := by
  constructor
  · unfold validate_trade_quote
    dsimp only
    rw [max_trade_L0]
    decide
  · norm_num

/-- C1 (amended): for a supported chain, valid addresses and a positive
amount against an existing non-empty pool with liquidity `L > 0`, the
validator accepts iff the amount is at most
`max_trade_amount L = int(float(L) * 0.4)` computed in binary64, and
rejects with that maximum reported otherwise.  For all `L ≤ 10^15` this
cap equals the exact `floor(0.4 * L)` (so the spec example — liquidity
100, amount 41 rejected with max 40 — holds), but for larger `L`
binary64 rounding can shift the boundary by one (see the
counterexample). -/
theorem C1_amended (chain_id : String) (h1 : chain_id ∈ supportedChainIds)
    (amount L : ℤ) (ham : 0 < amount) (hL : 0 < L) :
    ((validate_trade_quote chain_id true true (some amount) ⟨true, false, L⟩).1 =
        ValidationResult.accepted L (max_trade_amount L) ↔
      amount ≤ max_trade_amount L) ∧
    ((validate_trade_quote chain_id true true (some amount) ⟨true, false, L⟩).1 =
        ValidationResult.spreadExceeded (max_trade_amount L) ↔
      max_trade_amount L < amount) ∧
    (L ≤ 10 ^ 15 → max_trade_amount L = Int.fdiv (2 * L) 5) := by
  refine ⟨?_, ?_, fun h2 => max_trade_exact hL h2⟩ <;>
  · unfold validate_trade_quote
    dsimp only
    rw [if_neg (not_not_intro h1), if_neg (by simp), if_neg (by simp),
      if_neg (not_le.mpr ham), if_neg (by simp), if_neg (by simp)]
    by_cases hcase : max_trade_amount L < amount
    · rw [if_pos hcase]
      simp [hcase, not_le.mpr hcase]
    · rw [if_neg hcase]
      simp [hcase, not_lt.mp hcase]

/-- Witness for C1 (amended): the spec scenario, liquidity 100 and
amount 40, on chain "1". -/
theorem C1_amended_witness :
    ((validate_trade_quote "1" true true (some 40) ⟨true, false, 100⟩).1 =
        ValidationResult.accepted 100 (max_trade_amount 100) ↔
      (40:ℤ) ≤ max_trade_amount 100) ∧
    max_trade_amount 100 = Int.fdiv (2 * 100) 5 :=
  ⟨(C1_amended "1" (by decide) 40 100 (by norm_num) (by norm_num)).1,
    (C1_amended "1" (by decide) 40 100 (by norm_num) (by norm_num)).2.2 (by norm_num)⟩

/- ===================== Claim C2 ====================================== -/

/-- C2 (counterexample): with current on-chain allowance 100 and a
requested amount of 50 (allowance already sufficient), the source still
submits two write transactions — the zero-reset and the new approval —
where the claim demands both steps be skipped (zero writes). -/
theorem C2_counterexample :
    (50 : ℤ) ≤ 100 ∧
    (approve_token_spending "1" true true true (some 50) ⟨100, true, true⟩).2.countP
        NetCall.isWrite = 2 ∧
    (approve_token_spending "1" true true true (some 50) ⟨100, true, true⟩).1 =
      ApproveResult.done [⟨"reset_allowance", true⟩, ⟨"set_allowance", true⟩] 50
        false true := by
  refine ⟨by norm_num, ?_, ?_⟩ <;> decide

/-- C2 (amended): the allowance phase never skips writes.  Past the
guards it always submits the `set_allowance` transaction, preceded by a
`reset_allowance` transaction whenever the current allowance is
positive: the write count is 2 when `0 < allowance` and 1 otherwise, and
never 0.  In particular a second run with the same target amount and an
already-sufficient (positive) allowance issues two additional writes,
not zero. -/
theorem C2_amended (chain_id : String) (h1 : chain_id ∈ supportedChainIds)
    (amount : Option ℤ) (env : ApproveEnv) :
    ((approve_token_spending chain_id true true true amount env).2.countP
        NetCall.isWrite = if 0 < env.current_allowance then 2 else 1) ∧
    (approve_token_spending chain_id true true true amount env).2.countP
        NetCall.isWrite ≠ 0 := by
  have hmain : (approve_token_spending chain_id true true true amount env).2.countP
      NetCall.isWrite = if 0 < env.current_allowance then 2 else 1 := by
    unfold approve_token_spending
    rw [if_neg (not_not_intro h1), if_neg (by simp), if_neg (by simp), if_neg (by simp)]
    by_cases hc : 0 < env.current_allowance
    · rw [if_pos hc]
      simp [hc, txSubmitCalls, List.countP_cons, List.countP_append, NetCall.isWrite]
    · rw [if_neg hc]
      simp [hc, txSubmitCalls, List.countP_cons, List.countP_append, NetCall.isWrite]
  refine ⟨hmain, ?_⟩
  rw [hmain]
  by_cases hc : 0 < env.current_allowance <;> simp [hc]

/-- Witness for C2 (amended) at a concrete environment. -/
theorem C2_amended_witness :
    ((approve_token_spending "1" true true true (some 7) ⟨5, true, true⟩).2.countP
        NetCall.isWrite = if (0:ℤ) < (⟨5, true, true⟩ : ApproveEnv).current_allowance
          then 2 else 1) ∧
    (approve_token_spending "1" true true true (some 7) ⟨5, true, true⟩).2.countP
        NetCall.isWrite ≠ 0 :=
  C2_amended "1" (by decide) (some 7) ⟨5, true, true⟩

/- ===================== Claim C4 ====================================== -/

/-- A lookup misses when no entry carries the key. -/
theorem lookup_not_mem {β : Type} (m : List (String × β)) (key : String)
    (h : ∀ p ∈ m, p.1 ≠ key) : m.lookup key = none := by
  induction m with
  | nil => rfl
  | cons q m ih =>
    obtain ⟨a, b⟩ := q
    have ha : a ≠ key := h (a, b) (by simp)
    simp only [List.lookup]
    have hb : (key == a) = false := beq_eq_false_iff_ne.mpr fun he => ha he.symm
    rw [hb]
    exact ih fun p hp => h p (by simp [hp])

/-- Lookup by chain name in the filtered-and-mapped balances list: a
chain with a live client maps to its settled result, a chain without one
has no entry at all. -/
theorem lookup_filter_map (l : List (String × ChainConfig)) (clients : List String)
    (env : String → ChainBalanceResult)
    (hnd : (l.map (fun x => x.2.name)).Nodup) (p : String × ChainConfig) (hp : p ∈ l) :
    ((l.filter (fun x => x.1 ∈ clients)).map
        (fun x => (x.2.name, env x.1))).lookup p.2.name =
      if p.1 ∈ clients then some (env p.1) else none := by
  induction l with
  | nil => cases hp
  | cons q l ih =>
    rw [List.map_cons, List.nodup_cons] at hnd
    obtain ⟨hq, hnd'⟩ := hnd
    rcases List.mem_cons.mp hp with hpq | hpl
    · subst hpq
      by_cases hcl : p.1 ∈ clients
      · rw [if_pos hcl, List.filter_cons, if_pos (by simpa using hcl), List.map_cons]
        simp [List.lookup]
      · rw [if_neg hcl, List.filter_cons, if_neg (by simpa using hcl)]
        apply lookup_not_mem
        intro e he
        rw [List.mem_map] at he
        obtain ⟨x, hx, hxe⟩ := he
        have hxl : x ∈ l := List.mem_of_mem_filter hx
        have : x.2.name ∈ l.map (fun x => x.2.name) := List.mem_map_of_mem _ hxl
        rw [← hxe]
        intro hcontra
        exact hq (hcontra ▸ this)
    · have hpname : p.2.name ∈ l.map (fun x => x.2.name) := List.mem_map_of_mem _ hpl
      have hne : q.2.name ≠ p.2.name := fun he => hq (he ▸ hpname)
      rw [List.filter_cons]
      by_cases hql : q.1 ∈ clients
      · rw [if_pos (by simpa using hql), List.map_cons]
        simp only [List.lookup]
        have hb2 : (p.2.name == q.2.name) = false :=
          beq_eq_false_iff_ne.mpr fun he => hne he.symm
        rw [hb2]
        exact ih hnd' hpl
      · rw [if_neg (by simpa using hql)]
        exact ih hnd' hpl

/-- C4 (counterexample): aggregating over all seven configured chains
with the `"56"` client missing from the live set, the result map simply
has no entry for BNB Smart Chain — there is no
`Error("client not available")` slot, contradicting the claim; chains
with clients keep their settled results. -/
theorem C4_counterexample :
    get_address_balances true ["1", "42161", "10", "8453", "137", "100"]
        (fun _ => ChainBalanceResult.error "x") =
      Except.ok [("Ethereum", ChainBalanceResult.error "x"),
        ("Arbitrum One", ChainBalanceResult.error "x"),
        ("Optimism", ChainBalanceResult.error "x"),
        ("Base", ChainBalanceResult.error "x"),
        ("Polygon", ChainBalanceResult.error "x"),
        ("Gnosis Chain", ChainBalanceResult.error "x")] ∧
    ("56", (⟨56, "BNB Smart Chain", 5⟩ : ChainConfig)) ∈ CHAIN_CONFIGS ∧
    List.lookup "BNB Smart Chain"
        [("Ethereum", ChainBalanceResult.error "x"),
          ("Arbitrum One", ChainBalanceResult.error "x"),
          ("Optimism", ChainBalanceResult.error "x"),
          ("Base", ChainBalanceResult.error "x"),
          ("Polygon", ChainBalanceResult.error "x"),
          ("Gnosis Chain", ChainBalanceResult.error "x")] = none := by
  refine ⟨by rfl, by decide, by rfl⟩

/-- C4 (amended): after address validation, `get_address_balances`
returns a map keyed by chain name that contains exactly the configured
chains whose client is live — each bound to its settled per-chain result
— while every configured chain without a live client is silently
omitted (no entry of any kind, rather than the claimed
`Error("client not available")` slot); an invalid address fails fast. -/
theorem C4_amended (clients : List String) (env : String → ChainBalanceResult)
    (m : List (String × ChainBalanceResult))
    (hm : get_address_balances true clients env = Except.ok m) :
    (∀ p ∈ CHAIN_CONFIGS, m.lookup p.2.name =
      if p.1 ∈ clients then some (env p.1) else none) ∧
    get_address_balances false clients env = Except.error "Invalid address format" := by
  constructor
  · unfold get_address_balances at hm
    rw [if_neg (by simp)] at hm
    have hmeq : m = (CHAIN_CONFIGS.filter (fun p => p.1 ∈ clients)).map
        (fun p => (p.2.name, env p.1)) := by
      cases hm
      rfl
    subst hmeq
    intro p hp
    exact lookup_filter_map CHAIN_CONFIGS clients env (by decide) p hp
  · unfold get_address_balances
    rw [if_pos (by simp)]

/-- Witness for C4 (amended) at a concrete client set and environment. -/
theorem C4_amended_witness :
    (∀ p ∈ CHAIN_CONFIGS,
      List.lookup p.2.name [("Ethereum", ChainBalanceResult.error "x"),
        ("Arbitrum One", ChainBalanceResult.error "x"),
        ("Optimism", ChainBalanceResult.error "x"),
        ("Base", ChainBalanceResult.error "x"),
        ("Polygon", ChainBalanceResult.error "x"),
        ("Gnosis Chain", ChainBalanceResult.error "x")] =
      if p.1 ∈ ["1", "42161", "10", "8453", "137", "100"]
        then some ((fun _ => ChainBalanceResult.error "x") p.1) else none) ∧
    get_address_balances false ["1", "42161", "10", "8453", "137", "100"]
        (fun _ => ChainBalanceResult.error "x") =
      Except.error "Invalid address format" :=
  C4_amended ["1", "42161", "10", "8453", "137", "100"]
    (fun _ => ChainBalanceResult.error "x")
    [("Ethereum", ChainBalanceResult.error "x"),
      ("Arbitrum One", ChainBalanceResult.error "x"),
      ("Optimism", ChainBalanceResult.error "x"),
      ("Base", ChainBalanceResult.error "x"),
      ("Polygon", ChainBalanceResult.error "x"),
      ("Gnosis Chain", ChainBalanceResult.error "x")] (by rfl)

/- ===================== Claim C8 ====================================== -/

/-- Every supported chain has a Trader contract address configured. -/
theorem trader_nonempty {c : String} (h : c ∈ supportedChainIds) :
    ¬ ((TRADER_ADDRESSES.lookup c).getD "" = "") := by
  have h2 : c = "1" ∨ c = "42161" ∨ c = "10" ∨ c = "8453" ∨ c = "56" ∨ c = "137" ∨
      c = "100" := by
    simpa [supportedChainIds, CHAIN_CONFIGS] using h
  rcases h2 with h2 | h2 | h2 | h2 | h2 | h2 | h2 <;> subst h2 <;> decide

/-- C8: on every supported chain, when gas estimation succeeds with
estimate `g` the submitted transaction carries the gas limit
`g + g // 3` (a 33% buffer, `GAS_MULTIPLIER = 3`), and when estimation
fails the fixed per-call-kind default is used (300000 for the swap,
400000 for the liquidity operations) and the transaction is still
submitted rather than the plan aborting — for all three execution-phase
operations. -/
theorem C8_gas_buffer (chain_id : String) (h1 : chain_id ∈ supportedChainIds)
    (amt a0 a1 : ℤ) (hamt : 0 < amt) (ha0 : 0 < a0) (ha1 : 0 < a1)
    (gf : Option ℤ) (g : ℤ) (st : Bool) :
    (execute_token_swap chain_id true true true (some amt) ⟨gf, some g, st⟩).1 =
        ExecResult.submitted (g + Int.fdiv g GAS_MULTIPLIER) (gf.getD 0) st ∧
    (execute_token_swap chain_id true true true (some amt) ⟨gf, none, st⟩).1 =
        ExecResult.submitted 300000 (gf.getD 0) st ∧
    (add_liquidity chain_id true true true (some a0) (some a1) ⟨gf, some g, st⟩).1 =
        ExecResult.submitted (g + Int.fdiv g GAS_MULTIPLIER) (gf.getD 0) st ∧
    (add_liquidity chain_id true true true (some a0) (some a1) ⟨gf, none, st⟩).1 =
        ExecResult.submitted 400000 (gf.getD 0) st ∧
    (remove_liquidity chain_id true true true (some amt) ⟨gf, some g, st⟩).1 =
        ExecResult.submitted (g + Int.fdiv g GAS_MULTIPLIER) (gf.getD 0) st ∧
    (remove_liquidity chain_id true true true (some amt) ⟨gf, none, st⟩).1 =
        ExecResult.submitted 400000 (gf.getD 0) st := by
  refine ⟨?_, ?_, ?_, ?_, ?_, ?_⟩
  · unfold execute_token_swap
    rw [if_neg (not_not_intro h1), if_neg (by simp), if_neg (trader_nonempty h1),
      if_neg (by simp), if_neg (by simp)]
    dsimp only
    rw [if_neg (not_le.mpr hamt)]
    rfl
  · unfold execute_token_swap
    rw [if_neg (not_not_intro h1), if_neg (by simp), if_neg (trader_nonempty h1),
      if_neg (by simp), if_neg (by simp)]
    dsimp only
    rw [if_neg (not_le.mpr hamt)]
    rfl
  · unfold add_liquidity
    rw [if_neg (not_not_intro h1), if_neg (by simp), if_neg (trader_nonempty h1),
      if_neg (by simp), if_neg (by simp)]
    dsimp only
    rw [if_neg (by push_neg; omega)]
    rfl
  · unfold add_liquidity
    rw [if_neg (not_not_intro h1), if_neg (by simp), if_neg (trader_nonempty h1),
      if_neg (by simp), if_neg (by simp)]
    dsimp only
    rw [if_neg (by push_neg; omega)]
    rfl
  · unfold remove_liquidity
    rw [if_neg (not_not_intro h1), if_neg (by simp), if_neg (trader_nonempty h1),
      if_neg (by simp), if_neg (by simp)]
    dsimp only
    rw [if_neg (not_le.mpr hamt)]
    rfl
  · unfold remove_liquidity
    rw [if_neg (not_not_intro h1), if_neg (by simp), if_neg (trader_nonempty h1),
      if_neg (by simp), if_neg (by simp)]
    dsimp only
    rw [if_neg (not_le.mpr hamt)]
    rfl

/-- Witness for C8 at chain "1" with estimate 21000. -/
theorem C8_gas_buffer_witness :
    (execute_token_swap "1" true true true (some 5) ⟨none, some 21000, true⟩).1 =
        ExecResult.submitted (21000 + Int.fdiv 21000 GAS_MULTIPLIER)
          ((none : Option ℤ).getD 0) true ∧
    (execute_token_swap "1" true true true (some 5) ⟨none, none, true⟩).1 =
        ExecResult.submitted 300000 ((none : Option ℤ).getD 0) true :=
  ⟨(C8_gas_buffer "1" (by decide) 5 1 1 (by norm_num) (by norm_num) (by norm_num)
      none 21000 true).1,
    (C8_gas_buffer "1" (by decide) 5 1 1 (by norm_num) (by norm_num) (by norm_num)
      none 21000 true).2.1⟩

/- ===================== Claim C9 ====================================== -/

/-- C9: every embedded operation that takes a chain identifier rejects an
id outside the statically supported set immediately — the result is the
unsupported-chain configuration error carrying the offending id, the
network-call trace is empty, and there is no fallback to a default
chain. -/
theorem C9_unsupported (chain_id : String) (h : chain_id ∉ supportedChainIds)
    (ia oa : Bool) (amt : Option ℤ) (q : QuoteData)
    (ca ta sa : Bool) (am : Option ℤ) (aenv : ApproveEnv)
    (fa tb : Bool) (aw : Option ℤ) (eenv : ExecEnv)
    (a0 a1 la : Option ℤ) (br : Bool)
    (ea isn ia2 : Bool) (amp : Option ℚ) (sl : ℚ) (benv : BuyEnv)
    (ea2 : Bool) (ams : Option ℚ) (senv : SellEnv) :
    validate_trade_quote chain_id ia oa amt q =
        (ValidationResult.unsupportedChain chain_id, []) ∧
    approve_token_spending chain_id ca ta sa am aenv =
        (ApproveResult.errUnsupportedChain chain_id, []) ∧
    execute_token_swap chain_id ca fa tb aw eenv =
        (ExecResult.errUnsupportedChain chain_id, []) ∧
    add_liquidity chain_id ca fa tb a0 a1 eenv =
        (ExecResult.errUnsupportedChain chain_id, []) ∧
    remove_liquidity chain_id ca fa tb la eenv =
        (ExecResult.errUnsupportedChain chain_id, []) ∧
    get_chain_info chain_id ca br =
        (ChainInfoResult.errUnsupportedChain chain_id supportedChainIds, []) ∧
    buy_etf_token chain_id ea isn ia2 amp sl benv =
        (BuyResult.errUnsupportedChain chain_id, []) ∧
    sell_etf_token chain_id ea2 ams senv =
        (SellResult.errUnsupportedChain chain_id, []) := by
  refine ⟨?_, ?_, ?_, ?_, ?_, ?_, ?_, ?_⟩
  · unfold validate_trade_quote; rw [if_pos h]
  · unfold approve_token_spending; rw [if_pos h]
  · unfold execute_token_swap; rw [if_pos h]
  · unfold add_liquidity; rw [if_pos h]
  · unfold remove_liquidity; rw [if_pos h]
  · unfold get_chain_info; rw [if_pos h]
  · unfold buy_etf_token; rw [if_pos h]
  · unfold sell_etf_token; rw [if_pos h]

/-- Witness for C9 at the spec scenario chain id "999". -/
theorem C9_unsupported_witness :
    validate_trade_quote "999" true true (some 1) ⟨true, false, 1⟩ =
        (ValidationResult.unsupportedChain "999", []) ∧
    get_chain_info "999" true true =
        (ChainInfoResult.errUnsupportedChain "999" supportedChainIds, []) :=
  ⟨(C9_unsupported "999" (by decide) true true (some 1) ⟨true, false, 1⟩ true true true
      (some 1) ⟨0, true, true⟩ true true (some 1) ⟨none, none, true⟩ (some 1) (some 1)
      (some 1) true true true true (some 1) 2 ⟨true, true, none, none⟩ true (some 1)
      ⟨true, true, none⟩).1,
    (C9_unsupported "999" (by decide) true true (some 1) ⟨true, false, 1⟩ true true true
      (some 1) ⟨0, true, true⟩ true true (some 1) ⟨none, none, true⟩ (some 1) (some 1)
      (some 1) true true true true (some 1) 2 ⟨true, true, none, none⟩ true (some 1)
      ⟨true, true, none⟩).2.2.2.2.2.1⟩

/- ===================== Claim C10 ===================================== -/

/-- C10: `buy_etf_token` and `sell_etf_token` never issue a chain write
on any input — every network call in their traces is a read (no
transaction is built, signed or submitted, leaving balances, allowances
and nonces untouched) — and whenever they succeed the returned record's
status field is the literal `"simulation"`. -/
theorem C10_simulation_only (chain_id : String) (ea isn ia : Bool) (amt : Option ℚ)
    (sl : ℚ) (benv : BuyEnv) (ea2 : Bool) (amt2 : Option ℚ) (senv : SellEnv) :
    (∀ c ∈ (buy_etf_token chain_id ea isn ia amt sl benv).2, c.isRead = true) ∧
    (∀ st es ed isym idec slg,
      (buy_etf_token chain_id ea isn ia amt sl benv).1 =
        BuyResult.simulation st es ed isym idec slg → st = "simulation") ∧
    (∀ c ∈ (sell_etf_token chain_id ea2 amt2 senv).2, c.isRead = true) ∧
    (∀ st es am2 bal dec2,
      (sell_etf_token chain_id ea2 amt2 senv).1 =
        SellResult.simulation st es am2 bal dec2 → st = "simulation") := by
  obtain ⟨ecc, ca, ei, ii⟩ := benv
  obtain ⟨ecc2, ca2, er⟩ := senv
  refine ⟨?_, ?_, ?_, ?_⟩
  · rcases amt with _ | amt <;> rcases ei with _ | ei <;> rcases ii with _ | ii <;>
      (unfold buy_etf_token; dsimp only; split_ifs) <;> simp [NetCall.isRead]
  · rcases amt with _ | amt <;> rcases ei with _ | ei <;> rcases ii with _ | ii <;>
      (unfold buy_etf_token; dsimp only; split_ifs) <;>
      (intro st es ed isym idec slg hh
       first
         | (rw [BuyResult.simulation.injEq] at hh; exact hh.1.symm)
         | exact absurd hh (by simp))
  · rcases amt2 with _ | amt2 <;> rcases er with _ | er <;>
      (unfold sell_etf_token; dsimp only; split_ifs) <;> simp [NetCall.isRead]
  · rcases amt2 with _ | amt2 <;> rcases er with _ | er <;>
      (unfold sell_etf_token; dsimp only; split_ifs) <;>
      (intro st es am2 bal dec2 hh
       first
         | (rw [SellResult.simulation.injEq] at hh; exact hh.1.symm)
         | exact absurd hh (by simp))

/-- Witness for C10: the single network call of a concrete native-input
buy simulation is a read. -/
theorem C10_simulation_only_witness :
    NetCall.isRead (NetCall.read "etf_token_info") = true :=
  (C10_simulation_only "1" true true true (some 1) 2 ⟨true, true, some ⟨"EFT", 18⟩, none⟩
    true (some 1) ⟨true, true, none⟩).1 (NetCall.read "etf_token_info") (by decide)
